import Mathlib

set_option linter.unusedVariables false
set_option linter.unreachableTactic false
set_option linter.unusedTactic false

/-!
SCXQ2 compression engine — verification of the codec and pack verifier.

Shallow embedding of the SCXQ2 compression calculus engine
(`dist/engine.js`, `dist/canon.js`, the verifier and hashing glue re-exported
through `dist/index.js`, and `src/base64.js`), together with proofs of the
specified properties: the decode law and its guards, the encode/decode
round-trip, canonicalization key-order invariance, the verifier's fail-first
ordering, and the dictionary-size invariants.

Modelling conventions:
* JS strings are sequences of UTF-16 code units, embedded as `List Nat`
  (code units are < 2^16 in every real JS string; lone surrogates are
  representable, which Lean's `String` could not do).
* Byte streams are `List Nat` whose members are < 256 in every run the
  JS code can produce (`Uint8Array` entries).
* JS `x << 8 | y` on byte values equals `x * 256 + y`; `idx >> 8` equals
  `idx / 256` and `idx & 255` equals `idx % 256` on the naturals involved.
* Fallible JS code (throwing, or looping forever) is modelled with `Option`.
* SHA-256 (`sha256HexUtf8`) is injected as a function parameter wherever it
  occurs: every property below depends on digests only through string
  equality, never through the digest algorithm itself.
-/

/-! ## UTF-16 code-unit strings -/

/-- A JS string: its sequence of UTF-16 code units. -/
abbrev CUStr := List Nat

/-! ## SCXQ2 decode — reference implementation (`scxq2DecodeUtf16`, verify module)

The decoder's error kinds, exactly the `kind` strings the source can return. -/

inductive DecodeErrKind where
  | invalid_byte
  | truncated_sequence
  | dict_index_oob
  | dict_entry_invalid
  | output_limit
deriving DecidableEq

/-- Decode outcome: `{ok: true, value}` or `{ok: false, kind, byte_offset}`.
The source attaches auxiliary fields (`index`, `byte`) to some errors; the
claims constrain only `kind` and `byte_offset`, which we keep. -/
inductive DecodeResult where
  | ok (value : CUStr)
  | err (kind : DecodeErrKind) (byte_offset : Nat)
deriving DecidableEq

/-- The dictionary as the decoder sees it: a JS array whose entries are
strings (`some s`) or non-string values (`none`), matching the
`typeof tok !== "string"` guard in the source. -/
abbrev DecDict := List (Option CUStr)

/-- Default for `limits.maxOutputUnits`, from `SCXQ2_DEFAULT_POLICY`. -/
def SCXQ2_DEFAULT_MAX_OUTPUT_UNITS : Nat := 134217728

/-- Byte offset reported with `output_limit`: the source computes
`Math.min(m - 1, i)` after advancing `i`; at that point the total length `m`
is `i` plus the number of unconsumed bytes. -/
def limOffset (i restLen : Nat) : Nat := min (i + restLen - 1) i

/-- The decode loop of `scxq2DecodeUtf16`, one constructor case per branch of
the source's `for` loop.  Arguments: remaining bytes, current byte offset `i`,
accumulated output `out`.  The source tracks `outUnits` in a separate counter
that always equals `out.length` (every emission appends exactly the counted
units), so we use `out.length` directly.  The `i + 2 >= m` truncation test is
equivalent to the remaining bytes after the marker numbering fewer than two. -/
def scxq2DecodeLoop (dictArr : DecDict) (maxOut : Nat) :
    List Nat → Nat → CUStr → DecodeResult
  | [], _, out => .ok out
  | b :: rest, i, out =>
    if b ≤ 0x7f then
      -- ASCII literal
      let out' := out ++ [b]
      if maxOut < out'.length then .err .output_limit (limOffset (i + 1) rest.length)
      else scxq2DecodeLoop dictArr maxOut rest (i + 1) out'
    else if b = 0x80 then
      -- DICT ref
      match rest with
      | b1 :: b2 :: rest' =>
        let j := b1 * 256 + b2
        match dictArr[j]? with
        | none => .err .dict_index_oob i
        | some none => .err .dict_entry_invalid i
        | some (some tok) =>
          let out' := out ++ tok
          if maxOut < out'.length then .err .output_limit (limOffset (i + 3) rest'.length)
          else scxq2DecodeLoop dictArr maxOut rest' (i + 3) out'
      | _ => .err .truncated_sequence i
    else if b = 0x81 then
      -- UTF-16 literal
      match rest with
      | b1 :: b2 :: rest' =>
        let u := b1 * 256 + b2
        let out' := out ++ [u]
        if maxOut < out'.length then .err .output_limit (limOffset (i + 3) rest'.length)
        else scxq2DecodeLoop dictArr maxOut rest' (i + 3) out'
      | _ => .err .truncated_sequence i
    else
      -- Invalid byte
      .err .invalid_byte i

/-- Entry point `scxq2DecodeUtf16(dictArr, bytes, limits)` with
`maxOut = limits?.maxOutputUnits ?? SCXQ2_DEFAULT_POLICY.maxOutputUnits`. -/
def scxq2DecodeUtf16 (dictArr : DecDict) (bytes : List Nat) (maxOut : Nat) : DecodeResult :=
  scxq2DecodeLoop dictArr maxOut bytes 0 []

/-- The same loop with the output-limit check removed: a specification device
used to state what the guarded decoder does relative to the unguarded one. -/
def scxq2DecodeLoopNL (dictArr : DecDict) :
    List Nat → Nat → CUStr → DecodeResult
  | [], _, out => .ok out
  | b :: rest, i, out =>
    if b ≤ 0x7f then
      scxq2DecodeLoopNL dictArr rest (i + 1) (out ++ [b])
    else if b = 0x80 then
      match rest with
      | b1 :: b2 :: rest' =>
        let j := b1 * 256 + b2
        match dictArr[j]? with
        | none => .err .dict_index_oob i
        | some none => .err .dict_entry_invalid i
        | some (some tok) => scxq2DecodeLoopNL dictArr rest' (i + 3) (out ++ tok)
      | _ => .err .truncated_sequence i
    else if b = 0x81 then
      match rest with
      | b1 :: b2 :: rest' =>
        scxq2DecodeLoopNL dictArr rest' (i + 3) (out ++ [b1 * 256 + b2])
      | _ => .err .truncated_sequence i
    else
      .err .invalid_byte i

/-- Unguarded decode of a whole stream, from the initial state. -/
def scxq2DecodeNL (dictArr : DecDict) (bytes : List Nat) : DecodeResult :=
  scxq2DecodeLoopNL dictArr bytes 0 []

/-! ## SCXQ2 encode (`encodeSCXQ2`, engine module)

`new Map(dict.map((t, i) => [t, i])).get(tok)`: later pairs overwrite earlier
ones, so the map resolves a token to its **last** index in the dictionary. -/

def lastIndexOf (dict : List CUStr) (tok : CUStr) : Nat :=
  match dict with
  | [] => 0
  | _ :: ds => if tok ∈ ds then lastIndexOf ds tok + 1 else 0

/-- The encoder's scan loop.  The JS loop runs `i` over `text`, advancing by
the greedy match's length, or by one code unit when nothing matches.  Each
iteration advances at least one position unless the matched token is empty, in
which case the JS loop never advances and diverges; we run the loop on fuel
(one unit per iteration) and return `none` on exhaustion, so fuel `|text|`
reproduces every terminating run exactly (`encodeLoop_total`). -/
def encodeLoop (dict : List CUStr) : Nat → CUStr → Option (List Nat)
  | _, [] => some []
  | 0, _ :: _ => none
  | fuel + 1, c :: rest =>
    match dict.find? (fun tok => tok.isPrefixOf (c :: rest)) with
    | some tok =>
      let idx := lastIndexOf dict tok
      (encodeLoop dict fuel ((c :: rest).drop tok.length)).map
        (fun bs => 0x80 :: idx / 256 :: idx % 256 :: bs)
    | none =>
      (encodeLoop dict fuel rest).map (fun bs =>
        if c < 128 then c :: bs else 0x81 :: c / 256 :: c % 256 :: bs)

/-- The byte stream `encodeSCXQ2(text, dict).bytes`.  The source also returns the base64
wrapping of these bytes and optional edge witnesses; the claims below concern
the byte stream. -/
def encodeSCXQ2 (text : CUStr) (dict : List CUStr) : Option (List Nat) :=
  encodeLoop dict text.length text

/-! ### Basic decoder lemmas -/

/-- Step equation: ASCII-literal branch of the unguarded loop. -/
theorem scxq2DecodeLoopNL_ascii (dictArr : DecDict) (b : Nat) (rest : List Nat) (i : Nat)
    (out : CUStr) (hb : b ≤ 0x7f) :
    scxq2DecodeLoopNL dictArr (b :: rest) i out =
      scxq2DecodeLoopNL dictArr rest (i + 1) (out ++ [b]) := by
  rw [scxq2DecodeLoopNL.eq_def]
  simp [hb]

/-- Step equation: dictionary-reference branch of the unguarded loop. -/
theorem scxq2DecodeLoopNL_dict (dictArr : DecDict) (b1 b2 : Nat) (rest' : List Nat) (i : Nat)
    (out tok : CUStr) (hj : dictArr[b1 * 256 + b2]? = some (some tok)) :
    scxq2DecodeLoopNL dictArr (0x80 :: b1 :: b2 :: rest') i out =
      scxq2DecodeLoopNL dictArr rest' (i + 3) (out ++ tok) := by
  rw [scxq2DecodeLoopNL.eq_def]
  simp [hj]

/-- Step equation: UTF-16-literal branch of the unguarded loop. -/
theorem scxq2DecodeLoopNL_u16 (dictArr : DecDict) (b1 b2 : Nat) (rest' : List Nat) (i : Nat)
    (out : CUStr) :
    scxq2DecodeLoopNL dictArr (0x81 :: b1 :: b2 :: rest') i out =
      scxq2DecodeLoopNL dictArr rest' (i + 3) (out ++ [b1 * 256 + b2]) := by
  rw [scxq2DecodeLoopNL.eq_def]
  simp

/-- In the unguarded loop the accumulator only grows: a successful run from
state `out` returns an extension of `out`. -/
theorem scxq2DecodeLoopNL_ok_grows (dictArr : DecDict) (bs : List Nat) (i : Nat) (out : CUStr) :
    ∀ v, scxq2DecodeLoopNL dictArr bs i out = .ok v → out <+: v := by
  induction bs, i, out using scxq2DecodeLoopNL.induct dictArr with
  | case1 i out =>
    intro v h
    rw [scxq2DecodeLoopNL.eq_def] at h
    cases h
    exact ⟨[], List.append_nil _⟩
  | case2 b rest i out hb ih =>
    intro v h
    rw [scxq2DecodeLoopNL_ascii dictArr b rest i out hb] at h
    exact List.IsPrefix.trans ⟨[b], rfl⟩ (ih v h)
  | case3 i out b1 b2 rest' j hj _ =>
    intro v h
    have hj' : dictArr[b1 * 256 + b2]? = none := hj
    rw [scxq2DecodeLoopNL.eq_def] at h
    simp [hj'] at h
  | case4 i out b1 b2 rest' j hj _ =>
    intro v h
    have hj' : dictArr[b1 * 256 + b2]? = some none := hj
    rw [scxq2DecodeLoopNL.eq_def] at h
    simp [hj'] at h
  | case5 i out b1 b2 rest' j tok hj _ ih =>
    intro v h
    have hj' : dictArr[b1 * 256 + b2]? = some (some tok) := hj
    rw [scxq2DecodeLoopNL_dict dictArr b1 b2 rest' i out tok hj'] at h
    exact List.IsPrefix.trans ⟨tok, rfl⟩ (ih v h)
  | case6 rest i out hshape _ =>
    intro v h
    rcases rest with _ | ⟨x, _ | ⟨y, r⟩⟩
    · rw [scxq2DecodeLoopNL.eq_def] at h; simp at h
    · rw [scxq2DecodeLoopNL.eq_def] at h; simp at h
    · exact ((hshape x y r rfl)).elim
  | case7 i out b1 b2 rest' _ _ ih =>
    intro v h
    rw [scxq2DecodeLoopNL_u16 dictArr b1 b2 rest' i out] at h
    exact List.IsPrefix.trans ⟨[b1 * 256 + b2], rfl⟩ (ih v h)
  | case8 rest i out hshape _ _ =>
    intro v h
    rcases rest with _ | ⟨x, _ | ⟨y, r⟩⟩
    · rw [scxq2DecodeLoopNL.eq_def] at h; simp at h
    · rw [scxq2DecodeLoopNL.eq_def] at h; simp at h
    · exact ((hshape x y r rfl)).elim
  | case9 b rest i out hb1 hb2 hb3 =>
    intro v h
    rw [scxq2DecodeLoopNL.eq_def] at h
    simp [hb1, hb2, hb3] at h

/-! Step equations for the guarded loop. -/

theorem scxq2DecodeLoop_ascii_step (dictArr : DecDict) (maxOut b : Nat) (rest : List Nat)
    (i : Nat) (out : CUStr) (hb : b ≤ 0x7f) (hlim : (out ++ [b]).length ≤ maxOut) :
    scxq2DecodeLoop dictArr maxOut (b :: rest) i out =
      scxq2DecodeLoop dictArr maxOut rest (i + 1) (out ++ [b]) := by
  have h' : ¬ maxOut < out.length + 1 := by simp at hlim; omega
  rw [scxq2DecodeLoop.eq_def]
  simp [hb, h']

theorem scxq2DecodeLoop_ascii_limit (dictArr : DecDict) (maxOut b : Nat) (rest : List Nat)
    (i : Nat) (out : CUStr) (hb : b ≤ 0x7f) (hlim : maxOut < (out ++ [b]).length) :
    scxq2DecodeLoop dictArr maxOut (b :: rest) i out =
      .err .output_limit (limOffset (i + 1) rest.length) := by
  have h' : maxOut < out.length + 1 := by simp at hlim; omega
  rw [scxq2DecodeLoop.eq_def]
  simp [hb, h']

theorem scxq2DecodeLoop_dict_step (dictArr : DecDict) (maxOut b1 b2 : Nat) (rest' : List Nat)
    (i : Nat) (out tok : CUStr) (hj : dictArr[b1 * 256 + b2]? = some (some tok))
    (hlim : (out ++ tok).length ≤ maxOut) :
    scxq2DecodeLoop dictArr maxOut (0x80 :: b1 :: b2 :: rest') i out =
      scxq2DecodeLoop dictArr maxOut rest' (i + 3) (out ++ tok) := by
  have h' : ¬ maxOut < out.length + tok.length := by simp at hlim; omega
  rw [scxq2DecodeLoop.eq_def]
  simp [hj, h']

theorem scxq2DecodeLoop_dict_limit (dictArr : DecDict) (maxOut b1 b2 : Nat) (rest' : List Nat)
    (i : Nat) (out tok : CUStr) (hj : dictArr[b1 * 256 + b2]? = some (some tok))
    (hlim : maxOut < (out ++ tok).length) :
    scxq2DecodeLoop dictArr maxOut (0x80 :: b1 :: b2 :: rest') i out =
      .err .output_limit (limOffset (i + 3) rest'.length) := by
  have h' : maxOut < out.length + tok.length := by simp at hlim; omega
  rw [scxq2DecodeLoop.eq_def]
  simp [hj, h']

theorem scxq2DecodeLoop_u16_step (dictArr : DecDict) (maxOut b1 b2 : Nat) (rest' : List Nat)
    (i : Nat) (out : CUStr) (hlim : (out ++ [b1 * 256 + b2]).length ≤ maxOut) :
    scxq2DecodeLoop dictArr maxOut (0x81 :: b1 :: b2 :: rest') i out =
      scxq2DecodeLoop dictArr maxOut rest' (i + 3) (out ++ [b1 * 256 + b2]) := by
  have h' : ¬ maxOut < out.length + 1 := by simp at hlim; omega
  rw [scxq2DecodeLoop.eq_def]
  simp [h']

theorem scxq2DecodeLoop_u16_limit (dictArr : DecDict) (maxOut b1 b2 : Nat) (rest' : List Nat)
    (i : Nat) (out : CUStr) (hlim : maxOut < (out ++ [b1 * 256 + b2]).length) :
    scxq2DecodeLoop dictArr maxOut (0x81 :: b1 :: b2 :: rest') i out =
      .err .output_limit (limOffset (i + 3) rest'.length) := by
  have h' : maxOut < out.length + 1 := by simp at hlim; omega
  rw [scxq2DecodeLoop.eq_def]
  simp [h']

/-- The guarded loop fails with `invalid_byte` at the current offset whenever
the head byte is none of the three recognized forms (so in particular for
0x82 through 0xFF). -/
theorem scxq2DecodeLoop_invalid (dictArr : DecDict) (maxOut b : Nat) (rest : List Nat)
    (i : Nat) (out : CUStr) (hb1 : ¬ b ≤ 0x7f) (hb2 : b ≠ 0x80) (hb3 : b ≠ 0x81) :
    scxq2DecodeLoop dictArr maxOut (b :: rest) i out = .err .invalid_byte i := by
  rw [scxq2DecodeLoop.eq_def]
  simp [hb1, hb2, hb3]

/-- Decomposition: a stretch of bytes that the unguarded loop decodes cleanly
to a value within the limit is consumed identically by the guarded loop, which
then continues on the remaining bytes from the advanced state. -/
theorem scxq2DecodeLoop_append (dictArr : DecDict) (maxOut : Nat) (p : List Nat) (i : Nat)
    (out : CUStr) :
    ∀ v, scxq2DecodeLoopNL dictArr p i out = .ok v → v.length ≤ maxOut →
      ∀ rest, scxq2DecodeLoop dictArr maxOut (p ++ rest) i out =
        scxq2DecodeLoop dictArr maxOut rest (i + p.length) v := by
  induction p, i, out using scxq2DecodeLoopNL.induct dictArr with
  | case1 i out =>
    intro v h _ rest
    rw [scxq2DecodeLoopNL.eq_def] at h
    cases h
    simp
  | case2 b rest0 i out hb ih =>
    intro v h hv rest
    rw [scxq2DecodeLoopNL_ascii dictArr b rest0 i out hb] at h
    have hlen : (out ++ [b]).length ≤ maxOut :=
      le_trans (scxq2DecodeLoopNL_ok_grows dictArr rest0 (i + 1) (out ++ [b]) v h).length_le hv
    rw [List.cons_append, scxq2DecodeLoop_ascii_step dictArr maxOut b (rest0 ++ rest) i out hb hlen,
      ih v h hv rest]
    congr 1
    simp only [List.length_cons]
    omega
  | case3 i out b1 b2 rest' j hj _ =>
    intro v h
    have hj' : dictArr[b1 * 256 + b2]? = none := hj
    rw [scxq2DecodeLoopNL.eq_def] at h
    simp [hj'] at h
  | case4 i out b1 b2 rest' j hj _ =>
    intro v h
    have hj' : dictArr[b1 * 256 + b2]? = some none := hj
    rw [scxq2DecodeLoopNL.eq_def] at h
    simp [hj'] at h
  | case5 i out b1 b2 rest' j tok hj _ ih =>
    intro v h hv rest
    have hj' : dictArr[b1 * 256 + b2]? = some (some tok) := hj
    rw [scxq2DecodeLoopNL_dict dictArr b1 b2 rest' i out tok hj'] at h
    have hlen : (out ++ tok).length ≤ maxOut :=
      le_trans (scxq2DecodeLoopNL_ok_grows dictArr rest' (i + 3) (out ++ tok) v h).length_le hv
    rw [List.cons_append, List.cons_append, List.cons_append,
      scxq2DecodeLoop_dict_step dictArr maxOut b1 b2 (rest' ++ rest) i out tok hj' hlen,
      ih v h hv rest]
    congr 1
    simp only [List.length_cons]
    omega
  | case6 rest0 i out hshape _ =>
    intro v h
    rcases rest0 with _ | ⟨x, _ | ⟨y, r⟩⟩
    · rw [scxq2DecodeLoopNL.eq_def] at h; simp at h
    · rw [scxq2DecodeLoopNL.eq_def] at h; simp at h
    · exact ((hshape x y r rfl)).elim
  | case7 i out b1 b2 rest' _ _ ih =>
    intro v h hv rest
    rw [scxq2DecodeLoopNL_u16 dictArr b1 b2 rest' i out] at h
    have hlen : (out ++ [b1 * 256 + b2]).length ≤ maxOut :=
      le_trans (scxq2DecodeLoopNL_ok_grows dictArr rest' (i + 3) (out ++ [b1 * 256 + b2]) v
        h).length_le hv
    rw [List.cons_append, List.cons_append, List.cons_append,
      scxq2DecodeLoop_u16_step dictArr maxOut b1 b2 (rest' ++ rest) i out hlen,
      ih v h hv rest]
    congr 1
    simp only [List.length_cons]
    omega
  | case8 rest0 i out hshape _ _ =>
    intro v h
    rcases rest0 with _ | ⟨x, _ | ⟨y, r⟩⟩
    · rw [scxq2DecodeLoopNL.eq_def] at h; simp at h
    · rw [scxq2DecodeLoopNL.eq_def] at h; simp at h
    · exact ((hshape x y r rfl)).elim
  | case9 b rest0 i out hb1 hb2 hb3 =>
    intro v h
    rw [scxq2DecodeLoopNL.eq_def] at h
    simp [hb1, hb2, hb3] at h

/-- If the unguarded loop runs some stretch of bytes to completion and ends
strictly beyond the limit, the guarded loop fails with `output_limit` on any
extension of that stretch: the check runs after every emission, so it fires at
the first emission that crosses the limit, before any later byte is looked at. -/
theorem scxq2DecodeLoop_limit_err (dictArr : DecDict) (maxOut : Nat) (p : List Nat) (i : Nat)
    (out : CUStr) :
    ∀ v, scxq2DecodeLoopNL dictArr p i out = .ok v → out.length ≤ maxOut →
      maxOut < v.length →
      ∀ rest, ∃ off, scxq2DecodeLoop dictArr maxOut (p ++ rest) i out =
        .err .output_limit off := by
  induction p, i, out using scxq2DecodeLoopNL.induct dictArr with
  | case1 i out =>
    intro v h h0 hv rest
    rw [scxq2DecodeLoopNL.eq_def] at h
    cases h
    omega
  | case2 b rest0 i out hb ih =>
    intro v h h0 hv rest
    rw [scxq2DecodeLoopNL_ascii dictArr b rest0 i out hb] at h
    by_cases hl : maxOut < (out ++ [b]).length
    · exact ⟨limOffset (i + 1) (rest0 ++ rest).length, by
        rw [List.cons_append]
        exact scxq2DecodeLoop_ascii_limit dictArr maxOut b (rest0 ++ rest) i out hb hl⟩
    · have h0' : (out ++ [b]).length ≤ maxOut := Nat.le_of_not_lt hl
      obtain ⟨off, ho⟩ := ih v h h0' hv rest
      exact ⟨off, by
        rw [List.cons_append,
          scxq2DecodeLoop_ascii_step dictArr maxOut b (rest0 ++ rest) i out hb h0']
        exact ho⟩
  | case3 i out b1 b2 rest' j hj _ =>
    intro v h
    have hj' : dictArr[b1 * 256 + b2]? = none := hj
    rw [scxq2DecodeLoopNL.eq_def] at h
    simp [hj'] at h
  | case4 i out b1 b2 rest' j hj _ =>
    intro v h
    have hj' : dictArr[b1 * 256 + b2]? = some none := hj
    rw [scxq2DecodeLoopNL.eq_def] at h
    simp [hj'] at h
  | case5 i out b1 b2 rest' j tok hj _ ih =>
    intro v h h0 hv rest
    have hj' : dictArr[b1 * 256 + b2]? = some (some tok) := hj
    rw [scxq2DecodeLoopNL_dict dictArr b1 b2 rest' i out tok hj'] at h
    by_cases hl : maxOut < (out ++ tok).length
    · exact ⟨limOffset (i + 3) (rest' ++ rest).length, by
        rw [List.cons_append, List.cons_append, List.cons_append]
        exact scxq2DecodeLoop_dict_limit dictArr maxOut b1 b2 (rest' ++ rest) i out tok hj' hl⟩
    · have h0' : (out ++ tok).length ≤ maxOut := Nat.le_of_not_lt hl
      obtain ⟨off, ho⟩ := ih v h h0' hv rest
      exact ⟨off, by
        rw [List.cons_append, List.cons_append, List.cons_append,
          scxq2DecodeLoop_dict_step dictArr maxOut b1 b2 (rest' ++ rest) i out tok hj' h0']
        exact ho⟩
  | case6 rest0 i out hshape _ =>
    intro v h
    rcases rest0 with _ | ⟨x, _ | ⟨y, r⟩⟩
    · rw [scxq2DecodeLoopNL.eq_def] at h; simp at h
    · rw [scxq2DecodeLoopNL.eq_def] at h; simp at h
    · exact ((hshape x y r rfl)).elim
  | case7 i out b1 b2 rest' _ _ ih =>
    intro v h h0 hv rest
    rw [scxq2DecodeLoopNL_u16 dictArr b1 b2 rest' i out] at h
    by_cases hl : maxOut < (out ++ [b1 * 256 + b2]).length
    · exact ⟨limOffset (i + 3) (rest' ++ rest).length, by
        rw [List.cons_append, List.cons_append, List.cons_append]
        exact scxq2DecodeLoop_u16_limit dictArr maxOut b1 b2 (rest' ++ rest) i out hl⟩
    · have h0' : (out ++ [b1 * 256 + b2]).length ≤ maxOut := Nat.le_of_not_lt hl
      obtain ⟨off, ho⟩ := ih v h h0' hv rest
      exact ⟨off, by
        rw [List.cons_append, List.cons_append, List.cons_append,
          scxq2DecodeLoop_u16_step dictArr maxOut b1 b2 (rest' ++ rest) i out h0']
        exact ho⟩
  | case8 rest0 i out hshape _ _ =>
    intro v h
    rcases rest0 with _ | ⟨x, _ | ⟨y, r⟩⟩
    · rw [scxq2DecodeLoopNL.eq_def] at h; simp at h
    · rw [scxq2DecodeLoopNL.eq_def] at h; simp at h
    · exact ((hshape x y r rfl)).elim
  | case9 b rest0 i out hb1 hb2 hb3 =>
    intro v h
    rw [scxq2DecodeLoopNL.eq_def] at h
    simp [hb1, hb2, hb3] at h

/-- A success of the guarded loop from a within-limit state is a success of
the unguarded loop, and its value respects the limit. -/
theorem scxq2DecodeLoop_ok_imp (dictArr : DecDict) (maxOut : Nat) (bs : List Nat) (i : Nat)
    (out : CUStr) :
    ∀ v, out.length ≤ maxOut → scxq2DecodeLoop dictArr maxOut bs i out = .ok v →
      scxq2DecodeLoopNL dictArr bs i out = .ok v ∧ v.length ≤ maxOut := by
  induction bs, i, out using scxq2DecodeLoop.induct dictArr maxOut with
  | case1 i out =>
    intro v h0 h
    rw [scxq2DecodeLoop.eq_def] at h
    cases h
    rw [scxq2DecodeLoopNL.eq_def]
    exact ⟨rfl, h0⟩
  | case2 b rest i out hb out' hlim =>
    intro v h0 h
    have hl2 : maxOut < (out ++ [b]).length := hlim
    have hl : maxOut < out.length + 1 := by simpa using hl2
    rw [scxq2DecodeLoop.eq_def] at h
    simp [hb, hl] at h
  | case3 b rest i out hb out' hlim ih =>
    intro v h0 h
    have h0' : (out ++ [b]).length ≤ maxOut := Nat.le_of_not_lt hlim
    rw [scxq2DecodeLoop_ascii_step dictArr maxOut b rest i out hb h0'] at h
    obtain ⟨hnl, hv⟩ := ih v h0' h
    exact ⟨by rw [scxq2DecodeLoopNL_ascii dictArr b rest i out hb]; exact hnl, hv⟩
  | case4 i out b1 b2 rest' j hj _ =>
    intro v h0 h
    have hj' : dictArr[b1 * 256 + b2]? = none := hj
    rw [scxq2DecodeLoop.eq_def] at h
    simp [hj'] at h
  | case5 i out b1 b2 rest' j hj _ =>
    intro v h0 h
    have hj' : dictArr[b1 * 256 + b2]? = some none := hj
    rw [scxq2DecodeLoop.eq_def] at h
    simp [hj'] at h
  | case6 i out b1 b2 rest' j tok hj out' hlim _ =>
    intro v h0 h
    have hj' : dictArr[b1 * 256 + b2]? = some (some tok) := hj
    have hl2 : maxOut < (out ++ tok).length := hlim
    have hl : maxOut < out.length + tok.length := by simpa using hl2
    rw [scxq2DecodeLoop.eq_def] at h
    simp [hj', hl] at h
  | case7 i out b1 b2 rest' j tok hj out' hlim _ ih =>
    intro v h0 h
    have hj' : dictArr[b1 * 256 + b2]? = some (some tok) := hj
    have h0' : (out ++ tok).length ≤ maxOut := Nat.le_of_not_lt hlim
    rw [scxq2DecodeLoop_dict_step dictArr maxOut b1 b2 rest' i out tok hj' h0'] at h
    obtain ⟨hnl, hv⟩ := ih v h0' h
    exact ⟨by rw [scxq2DecodeLoopNL_dict dictArr b1 b2 rest' i out tok hj']; exact hnl, hv⟩
  | case8 rest i out hshape _ =>
    intro v h0 h
    rcases rest with _ | ⟨x, _ | ⟨y, r⟩⟩
    · rw [scxq2DecodeLoop.eq_def] at h; simp at h
    · rw [scxq2DecodeLoop.eq_def] at h; simp at h
    · exact ((hshape x y r rfl)).elim
  | case9 i out b1 b2 rest' u out' hlim _ _ =>
    intro v h0 h
    have hl2 : maxOut < (out ++ [u]).length := hlim
    have hl : maxOut < out.length + 1 := by simpa using hl2
    rw [scxq2DecodeLoop.eq_def] at h
    simp [hl] at h
  | case10 i out b1 b2 rest' u out' hlim _ _ ih =>
    intro v h0 h
    have h0' : (out ++ [b1 * 256 + b2]).length ≤ maxOut := Nat.le_of_not_lt hlim
    rw [scxq2DecodeLoop_u16_step dictArr maxOut b1 b2 rest' i out h0'] at h
    obtain ⟨hnl, hv⟩ := ih v h0' h
    exact ⟨by rw [scxq2DecodeLoopNL_u16 dictArr b1 b2 rest' i out]; exact hnl, hv⟩
  | case11 rest i out hshape _ _ =>
    intro v h0 h
    rcases rest with _ | ⟨x, _ | ⟨y, r⟩⟩
    · rw [scxq2DecodeLoop.eq_def] at h; simp at h
    · rw [scxq2DecodeLoop.eq_def] at h; simp at h
    · exact ((hshape x y r rfl)).elim
  | case12 b rest i out hb1 hb2 hb3 =>
    intro v h0 h
    rw [scxq2DecodeLoop.eq_def] at h
    simp [hb1, hb2, hb3] at h

/-- Converse: a within-limit success of the unguarded loop is returned
unchanged by the guarded loop. -/
theorem scxq2DecodeLoop_ok_of (dictArr : DecDict) (maxOut : Nat) (bs : List Nat) (i : Nat)
    (out : CUStr) (v : CUStr) (h : scxq2DecodeLoopNL dictArr bs i out = .ok v)
    (hv : v.length ≤ maxOut) :
    scxq2DecodeLoop dictArr maxOut bs i out = .ok v := by
  have happ := scxq2DecodeLoop_append dictArr maxOut bs i out v h hv []
  rw [List.append_nil] at happ
  rw [happ, scxq2DecodeLoop.eq_def]

/-! ### Encoder lemmas -/

theorem lastIndexOf_getElem? (dict : List CUStr) (tok : CUStr) (h : tok ∈ dict) :
    dict[lastIndexOf dict tok]? = some tok := by
  induction dict with
  | nil => cases h
  | cons a ds ih =>
    rw [lastIndexOf]
    by_cases hm : tok ∈ ds
    · rw [if_pos hm]
      simpa using ih hm
    · rw [if_neg hm]
      have : tok = a := by
        rcases List.mem_cons.mp h with h1 | h2
        · exact h1
        · exact absurd h2 hm
      simp [this]

theorem lastIndexOf_lt_length (dict : List CUStr) (tok : CUStr) (h : tok ∈ dict) :
    lastIndexOf dict tok < dict.length := by
  induction dict with
  | nil => cases h
  | cons a ds ih =>
    rw [lastIndexOf]
    by_cases hm : tok ∈ ds
    · rw [if_pos hm]
      simpa using ih hm
    · rw [if_neg hm]
      simp

/-- With every dictionary token non-empty, each iteration of the scan consumes
at least one code unit, so fuel `|text|` never runs out: the JS encoder
terminates, and the fuelled model returns `some`. -/
theorem encodeLoop_total (dict : List CUStr) (hne : ∀ t ∈ dict, t ≠ []) :
    ∀ fuel rem, rem.length ≤ fuel → ∃ bs, encodeLoop dict fuel rem = some bs := by
  intro fuel
  induction fuel with
  | zero =>
    intro rem h
    cases rem with
    | nil => exact ⟨[], rfl⟩
    | cons c rest => simp at h
  | succ n ih =>
    intro rem h
    cases rem with
    | nil => exact ⟨[], rfl⟩
    | cons c rest =>
      cases hfind : dict.find? (fun tok => tok.isPrefixOf (c :: rest)) with
      | some tok =>
        have htokne : tok ≠ [] := hne tok (List.mem_of_find?_eq_some hfind)
        have hpre : tok <+: (c :: rest) := by
          have h1 := List.find?_some hfind
          simpa only [ List.isPrefixOf_iff_prefix] using h1
        have htlen : 1 ≤ tok.length := by
          cases tok with
          | nil => exact absurd rfl htokne
          | cons _ _ => simp
        have hdlen : ((c :: rest).drop tok.length).length ≤ n := by
          have h1 : tok.length ≤ (c :: rest).length := hpre.length_le
          simp only [List.length_drop]
          simp at h ⊢
          omega
        obtain ⟨bs0, h0⟩ := ih _ hdlen
        refine ⟨0x80 :: lastIndexOf dict tok / 256 :: lastIndexOf dict tok % 256 :: bs0, ?_⟩
        simp [encodeLoop, hfind, h0]
      | none =>
        have hdlen : rest.length ≤ n := by simp at h; omega
        obtain ⟨bs0, h0⟩ := ih rest hdlen
        refine ⟨if c < 128 then c :: bs0 else 0x81 :: c / 256 :: c % 256 :: bs0, ?_⟩
        simp [encodeLoop, hfind, h0]

/-- Round-trip at the loop level: whatever byte stream the encoder emits for
the remaining text, the unguarded decode loop appends exactly that text. -/
theorem encodeLoop_decodeNL (dict : List CUStr) :
    ∀ fuel rem bs, encodeLoop dict fuel rem = some bs →
      ∀ i out, scxq2DecodeLoopNL (dict.map some) bs i out = .ok (out ++ rem) := by
  intro fuel rem
  induction fuel, rem using encodeLoop.induct dict with
  | case1 fuel =>
    intro bs h i out
    rw [encodeLoop] at h
    cases h
    rw [scxq2DecodeLoopNL.eq_def]
    simp
  | case2 c rest =>
    intro bs h i out
    rw [encodeLoop] at h
    cases h
  | case3 fuel c rest tok hfind ih =>
    intro bs h i out
    rw [encodeLoop, hfind] at h
    rcases Option.map_eq_some'.mp h with ⟨bs0, h0, rfl⟩
    have htokmem : tok ∈ dict := List.mem_of_find?_eq_some hfind
    have hpre : tok <+: (c :: rest) := by
      have h1 := List.find?_some hfind
      simpa only [ List.isPrefixOf_iff_prefix] using h1
    have hidx : lastIndexOf dict tok / 256 * 256 + lastIndexOf dict tok % 256 =
        lastIndexOf dict tok := Nat.div_add_mod' _ 256
    have hget : (dict.map some)[lastIndexOf dict tok / 256 * 256 +
        lastIndexOf dict tok % 256]? = some (some tok) := by
      rw [hidx, List.getElem?_map, lastIndexOf_getElem? dict tok htokmem]
      rfl
    rw [scxq2DecodeLoopNL_dict (dict.map some) _ _ bs0 i out tok hget]
    rw [ih bs0 h0 (i + 3) (out ++ tok)]
    obtain ⟨tl, htl⟩ := hpre
    have hsplit : tok ++ (c :: rest).drop tok.length = c :: rest := by
      rw [← htl, List.drop_left]
    rw [List.append_assoc, hsplit]
  | case4 fuel c rest hfind ih =>
    intro bs h i out
    rw [encodeLoop, hfind] at h
    rcases Option.map_eq_some'.mp h with ⟨bs0, h0, rfl⟩
    by_cases hc : c < 128
    · rw [if_pos hc]
      rw [scxq2DecodeLoopNL_ascii (dict.map some) c bs0 i out (by omega)]
      rw [ih bs0 h0 (i + 1) (out ++ [c])]
      simp
    · rw [if_neg hc]
      rw [scxq2DecodeLoopNL_u16 (dict.map some) (c / 256) (c % 256) bs0 i out]
      rw [Nat.div_add_mod' c 256]
      rw [ih bs0 h0 (i + 3) (out ++ [c])]
      simp

/-- Every byte the encoder emits is an actual byte (< 256), provided the
dictionary fits 16-bit indexing and the text is made of UTF-16 code units. -/
theorem encodeLoop_bytes_lt (dict : List CUStr) (hd : dict.length ≤ 65535) :
    ∀ fuel rem bs, (∀ u ∈ rem, u < 65536) → encodeLoop dict fuel rem = some bs →
      ∀ b ∈ bs, b < 256 := by
  intro fuel rem
  induction fuel, rem using encodeLoop.induct dict with
  | case1 fuel =>
    intro bs _ h b hb
    rw [encodeLoop] at h
    cases h
    cases hb
  | case2 c rest =>
    intro bs _ h
    rw [encodeLoop] at h
    cases h
  | case3 fuel c rest tok hfind ih =>
    intro bs hu h b hb
    rw [encodeLoop, hfind] at h
    rcases Option.map_eq_some'.mp h with ⟨bs0, h0, rfl⟩
    have htokmem : tok ∈ dict := List.mem_of_find?_eq_some hfind
    have hidx : lastIndexOf dict tok < 65535 + 1 :=
      lt_of_lt_of_le (lastIndexOf_lt_length dict tok htokmem) (by omega)
    have hu' : ∀ u ∈ (c :: rest).drop tok.length, u < 65536 := fun u hm =>
      hu u (List.mem_of_mem_drop hm)
    rcases hb with _ | ⟨_, _ | ⟨_, _ | ⟨_, hmem⟩⟩⟩
    · omega
    · omega
    · omega
    · exact ih bs0 hu' h0 b hmem
  | case4 fuel c rest hfind ih =>
    intro bs hu h b hb
    rw [encodeLoop, hfind] at h
    rcases Option.map_eq_some'.mp h with ⟨bs0, h0, rfl⟩
    have hc16 : c < 65536 := hu c (List.mem_cons_self c rest)
    have hu' : ∀ u ∈ rest, u < 65536 := fun u hm => hu u (List.mem_cons_of_mem c hm)
    by_cases hc : c < 128
    · rw [if_pos hc] at hb
      rcases hb with _ | ⟨_, hmem⟩
      · omega
      · exact ih bs0 hu' h0 b hmem
    · rw [if_neg hc] at hb
      rcases hb with _ | ⟨_, _ | ⟨_, _ | ⟨_, hmem⟩⟩⟩
      · omega
      · omega
      · omega
      · exact ih bs0 hu' h0 b hmem

/-! ## Compression options (`normalizeOpts`) and dictionary build (`buildDict`) -/

/-- Flag bundle built into the options by `normalizeOpts`. -/
structure CCFlags where
  noStrings : Bool
  noWS : Bool
  noPunct : Bool
deriving DecidableEq

/-- A caller-supplied options object: absent numeric/string fields are `none`
(the `??` fallbacks in the source); boolean fields model `!!opts.x`. -/
structure CCOptsIn where
  maxDict : Option Int
  minLen : Option Int
  created_utc : Option String
  source_file : Option String
  enableFieldOps : Bool
  enableEdgeOps : Bool
  noStrings : Bool
  noWS : Bool
  noPunct : Bool

/-- The normalized options record. -/
structure CCOpts where
  maxDict : Int
  minLen : Int
  created_utc : String
  source_file : Option String
  enableFieldOps : Bool
  enableEdgeOps : Bool
  flags : CCFlags

def clamp (v lo hi : Int) : Int := min hi (max lo v)

/-- Model of `normalizeOpts(opts)`.  The current time `isoUtc()` is passed in as
`nowIso` (a side-effect boundary); numeric options are modelled as integers —
the JS numbers ever passed here are integral, and non-finite doubles are
outside the model. -/
def normalizeOpts (opts : CCOptsIn) (nowIso : String) : CCOpts :=
  { maxDict := clamp (opts.maxDict.getD 1024) 1 65535,
    minLen := clamp (opts.minLen.getD 3) 2 128,
    created_utc := opts.created_utc.getD nowIso,
    source_file := opts.source_file,
    enableFieldOps := opts.enableFieldOps,
    enableEdgeOps := opts.enableEdgeOps,
    flags := ⟨opts.noStrings, opts.noWS, opts.noPunct⟩ }

/-- One entry of the scored token ranking that `collectTokens` produces. -/
structure ScoredTok where
  tok : CUStr
  count : Nat
  totalSavings : Int

/-- Code-unit lexicographic strict order on JS strings (`a < b`). -/
def cuLexLtB : CUStr → CUStr → Bool
  | [], [] => false
  | [], _ :: _ => true
  | _ :: _, [] => false
  | a :: as, b :: bs => if a < b then true else if b < a then false else cuLexLtB as bs

/-- Comparator of `buildDict`, `(a, b) => b.length - a.length || (a < b ? -1 : 1)`,
viewed as the total preorder it sorts by: longer first, ties in code-unit
order.  (Keys reaching the tie-break are distinct in the source — they come
from `Map` keys — so the comparator's behaviour on equal strings is moot.) -/
def dictLe (a b : CUStr) : Bool :=
  decide (b.length < a.length) ||
    (decide (a.length = b.length) && (cuLexLtB a b || decide (a = b)))

instance dictLeDecRel : DecidableRel (fun a b : CUStr => dictLe a b = true) :=
  fun a b => inferInstanceAs (Decidable (dictLe a b = true))

/-- Model of `buildDict(scored, o)`: push tokens in score order while
`dict.length < o.maxDict`, i.e. take the first `o.maxDict` tokens, then sort
longest-first.  (JS `Array.sort` with this comparator; any correct sort yields
the same list on distinct keys.) -/
def buildDict (scored : List ScoredTok) (o : CCOpts) : List CUStr :=
  List.insertionSort (fun a b => dictLe a b = true)
    ((scored.map ScoredTok.tok).take o.maxDict.toNat)

/-! ## Claim C1 — round-trip inverse law -/

/-- Claim C1, counterexample.  The claim quantifies over every dictionary
meeting §3's invariants (strings, at most 65535, repeats allowed) — which
allows the empty-string token.  With `D = [""]` and `S = "a"`, the JS
encoder's greedy scan matches `""` at position 0 and advances by its length,
zero, so the loop never terminates and no byte stream (hence no decode of it)
exists; in the fuelled model the encode is `none`.  The round-trip equation
claimed for all such `D` therefore fails here. -/
theorem c1_roundtrip_counterexample : encodeSCXQ2 [97] [[]] = none := by decide

/-- Claim C1 (amended).  For every UTF-16 string `S` and every dictionary of at
most 65535 **non-empty** strings, encoding terminates and decoding the
encoder's output against the same dictionary under the default decode limits
returns `S` exactly, provided `S` fits the default `maxOutputUnits` bound that
the claimed two-argument `scxq2DecodeUtf16` call implies. -/
theorem c1_roundtrip (S : CUStr) (D : List CUStr)
    (hS : ∀ u ∈ S, u < 65536) (hD : D.length ≤ 65535) (hne : ∀ t ∈ D, t ≠ [])
    (hlen : S.length ≤ SCXQ2_DEFAULT_MAX_OUTPUT_UNITS) :
    ∃ bs, encodeSCXQ2 S D = some bs ∧
      scxq2DecodeUtf16 (D.map some) bs SCXQ2_DEFAULT_MAX_OUTPUT_UNITS = .ok S := by
  obtain ⟨bs, hbs⟩ := encodeLoop_total D hne S.length S (le_refl _)
  refine ⟨bs, hbs, ?_⟩
  have hnl : scxq2DecodeLoopNL (D.map some) bs 0 [] = .ok ([] ++ S) :=
    encodeLoop_decodeNL D S.length S bs hbs 0 []
  rw [List.nil_append] at hnl
  exact scxq2DecodeLoop_ok_of (D.map some) SCXQ2_DEFAULT_MAX_OUTPUT_UNITS bs 0 [] S hnl hlen

/-- Witness for C1 (amended): `S = "hi"`, `D = ["hi"]`. -/
theorem c1_roundtrip_witness :
    ∃ bs, encodeSCXQ2 [104, 105] [[104, 105]] = some bs ∧
      scxq2DecodeUtf16 [some [104, 105]] bs SCXQ2_DEFAULT_MAX_OUTPUT_UNITS = .ok [104, 105] :=
  c1_roundtrip [104, 105] [[104, 105]] (by decide) (by decide) (by decide) (by decide)

/-! ## Claim C2 — invalid-byte rejection (normative decoder part) -/

/-- Claim C2 (amended), the `scxq2DecodeUtf16` half.  Whenever the decoder reaches a
byte in 0x82–0xFF — i.e. the bytes before it decode cleanly within the limit —
it fails immediately with `invalid_byte` at that offset, whatever follows. -/
theorem c2_invalid_byte (dictArr : DecDict) (p rest : List Nat) (b maxOut : Nat) (v : CUStr)
    (hp : scxq2DecodeNL dictArr p = .ok v) (hv : v.length ≤ maxOut)
    (hb1 : 0x82 ≤ b) (hb2 : b ≤ 0xff) :
    scxq2DecodeUtf16 dictArr (p ++ b :: rest) maxOut = .err .invalid_byte p.length := by
  have hp' : scxq2DecodeLoopNL dictArr p 0 [] = .ok v := hp
  unfold scxq2DecodeUtf16
  rw [scxq2DecodeLoop_append dictArr maxOut p 0 [] v hp' hv (b :: rest)]
  rw [scxq2DecodeLoop_invalid dictArr maxOut b rest (0 + p.length) v
    (by omega) (by omega) (by omega)]
  norm_num

/-- Witness for C2 (amended): the spec's Scenario B, dict `[]`,
bytes `[0x82]`. -/
theorem c2_invalid_byte_witness :
    scxq2DecodeUtf16 [] [0x82] SCXQ2_DEFAULT_MAX_OUTPUT_UNITS = .err .invalid_byte 0 := by
  have h := c2_invalid_byte [] [] [] 0x82 SCXQ2_DEFAULT_MAX_OUTPUT_UNITS [] rfl
    (Nat.zero_le _) (by decide) (by decide)
  simpa using h

/-! ## Claim C3 — decompression-bomb guard -/

/-- Claim C3.  The decoder checks the accumulated output length after every
emission against `maxOutputUnits`: (i) it succeeds exactly on the inputs whose
full unguarded decode stays within the limit — in particular an output of
length exactly `maxOut` succeeds — and returns that value; (ii) as soon as any
cleanly-decoded stretch of the input ends strictly beyond the limit, it fails
with `output_limit`, regardless of the remaining bytes. -/
theorem c3_output_limit_guard (dictArr : DecDict) (bytes : List Nat) (maxOut : Nat) :
    (∀ v, scxq2DecodeUtf16 dictArr bytes maxOut = .ok v ↔
      (scxq2DecodeNL dictArr bytes = .ok v ∧ v.length ≤ maxOut)) ∧
    (∀ p rest v, bytes = p ++ rest → scxq2DecodeNL dictArr p = .ok v → maxOut < v.length →
      ∃ off, scxq2DecodeUtf16 dictArr bytes maxOut = .err .output_limit off) := by
  constructor
  · intro v
    constructor
    · intro h
      exact scxq2DecodeLoop_ok_imp dictArr maxOut bytes 0 [] v (by simp) h
    · rintro ⟨hnl, hv⟩
      exact scxq2DecodeLoop_ok_of dictArr maxOut bytes 0 [] v hnl hv
  · rintro p rest v rfl hp hv
    exact scxq2DecodeLoop_limit_err dictArr maxOut p 0 [] v hp (by simp) hv rest

/-- Witness for C3: with `maxOut = 1`, decoding `"A"` yields exactly the
limit and succeeds; decoding `"AB"` crosses it and fails `output_limit`. -/
theorem c3_output_limit_guard_witness :
    scxq2DecodeUtf16 [] [65] 1 = .ok [65] ∧
    (∃ off, scxq2DecodeUtf16 [] [65, 66] 1 = .err .output_limit off) := by
  constructor
  · exact ((c3_output_limit_guard [] [65] 1).1 [65]).mpr ⟨by decide, by decide⟩
  · exact (c3_output_limit_guard [] [65, 66] 1).2 [65, 66] [] [65, 66] rfl (by decide) (by decide)

/-! ## Claim C10 — encoder-path dictionary-size invariant -/

/-- Claim C10.  Whatever the scored-token ranking (`collectTokens` output) and
whatever options object (absent, zero, negative or huge `maxDict` included),
the dictionary built by `normalizeOpts` + `buildDict` has at most 65535
entries, and consequently every byte `encodeSCXQ2` emits against it — in
particular both index bytes of every 16-bit dictionary reference — is a
byte (< 256). -/
theorem c10_dict_size_invariant (scored : List ScoredTok) (opts : CCOptsIn) (nowIso : String)
    (text : CUStr) :
    (buildDict scored (normalizeOpts opts nowIso)).length ≤ 65535 ∧
    (∀ bs, (∀ u ∈ text, u < 65536) →
      encodeSCXQ2 text (buildDict scored (normalizeOpts opts nowIso)) = some bs →
      ∀ b ∈ bs, b < 256) := by
  have hlen : (buildDict scored (normalizeOpts opts nowIso)).length ≤ 65535 := by
    unfold buildDict
    rw [List.Perm.length_eq (List.perm_insertionSort _ _)]
    refine le_trans (List.length_take_le _ _) ?_
    unfold normalizeOpts clamp
    simp only
    omega
  exact ⟨hlen, fun bs hu henc =>
    encodeLoop_bytes_lt (buildDict scored (normalizeOpts opts nowIso)) hlen
      text.length text bs hu henc⟩

/-- Witness for C10: one scored token `"hi"`, empty options, text `"hi"`. -/
theorem c10_dict_size_invariant_witness :
    (buildDict [⟨[104, 105], 2, 2⟩]
      (normalizeOpts ⟨none, none, none, none, false, false, false, false, false⟩ "t")).length
        ≤ 65535 ∧
    (∀ b ∈ [0x80, 0, 0], b < 256) := by
  have h := c10_dict_size_invariant [⟨[104, 105], 2, 2⟩]
    ⟨none, none, none, none, false, false, false, false, false⟩ "t" [104, 105]
  exact ⟨h.1, h.2 [0x80, 0, 0] (by decide) (by decide)⟩

/-! ## JSON-like values and canonical serialization (`canon.js`)

JS values reachable from JSON in this system: `null`, booleans, integers
(§4.1 limits numbers to integers), strings, arrays, and objects — an object
being its insertion-ordered, duplicate-free list of key/value pairs. -/

inductive JVal where
  | jnull
  | jbool (b : Bool)
  | jint (n : Int)
  | jstr (s : String)
  | jarr (elems : List JVal)
  | jobj (fields : List (String × JVal))

theorem sizeOf_snd_lt_of_mem_fields {kv : String × JVal} {fs : List (String × JVal)}
    (h : kv ∈ fs) : sizeOf kv.2 < 1 + sizeOf fs := by
  have h1 := List.sizeOf_lt_of_mem h
  have h2 : sizeOf kv.2 < sizeOf kv := by
    cases kv with
    | mk k v => simp only [Prod.mk.sizeOf_spec]; omega
  omega

/-- Model of `Object.keys(value).sort()`: JS sorts the key strings; with the values
carried along (keys are duplicate-free in a JS object, so this is the same
list).  JS compares strings by UTF-16 code units; Lean's `String` order
agrees on the key material this system produces.  `Array.sort` is
implementation-defined only up to the comparator, and on duplicate-free keys
every correct sort returns the same list, so we fix insertion sort. -/
def keySort (fs : List (String × JVal)) : List (String × JVal) :=
  List.insertionSort (fun a b => a.1 ≤ b.1) fs

/-- Model of `sortKeysDeep(value)`: arrays keep order and recurse; objects recurse
into each value and have their keys sorted; leaves are returned as-is. -/
def sortKeysDeep : JVal → JVal
  | .jnull => .jnull
  | .jbool b => .jbool b
  | .jint n => .jint n
  | .jstr s => .jstr s
  | .jarr xs => .jarr (xs.attach.map (fun x => sortKeysDeep x.1))
  | .jobj fs => .jobj ((keySort fs).attach.map (fun kv => (kv.1.1, sortKeysDeep kv.1.2)))
termination_by v => sizeOf v
decreasing_by
  · have := List.sizeOf_lt_of_mem x.2
    simp only [JVal.jarr.sizeOf_spec]
    omega
  · have hmem : kv.1 ∈ fs :=
      ((List.perm_insertionSort (fun (a b : String × JVal) => a.1 ≤ b.1) fs).mem_iff).mp
        (by simpa [keySort] using kv.2)
    have := sizeOf_snd_lt_of_mem_fields hmem
    simp only [JVal.jobj.sizeOf_spec]
    omega

theorem sortKeysDeep_jarr (xs : List JVal) :
    sortKeysDeep (.jarr xs) = .jarr (xs.map sortKeysDeep) := by
  rw [sortKeysDeep]
  congr 1
  exact List.attach_map_val xs sortKeysDeep

theorem sortKeysDeep_jobj (fs : List (String × JVal)) :
    sortKeysDeep (.jobj fs) =
      .jobj ((keySort fs).map (fun kv => (kv.1, sortKeysDeep kv.2))) := by
  rw [sortKeysDeep]
  congr 1
  exact List.attach_map_val (keySort fs) (fun kv => (kv.1, sortKeysDeep kv.2))

/-- Four lowercase hex digits, for `\u00XX`-style escapes. -/
def hexDigit (n : Nat) : Char :=
  if n < 10 then Char.ofNat (48 + n) else Char.ofNat (87 + n)

def hex4 (n : Nat) : String :=
  String.mk [hexDigit (n / 4096 % 16), hexDigit (n / 256 % 16), hexDigit (n / 16 % 16),
    hexDigit (n % 16)]

/-- Escaping of one character inside a `JSON.stringify` string literal. -/
def escJsonChar (c : Char) : String :=
  if c = '"' then "\\\""
  else if c = '\\' then "\\\\"
  else if c = '\n' then "\\n"
  else if c = '\r' then "\\r"
  else if c = '\t' then "\\t"
  else if c = Char.ofNat 8 then "\\b"
  else if c = Char.ofNat 12 then "\\f"
  else if c.toNat < 0x20 then "\\u" ++ hex4 c.toNat
  else String.singleton c

def jsonQuote (s : String) : String :=
  "\"" ++ String.join (s.data.map escJsonChar) ++ "\""

/-- Model of `JSON.stringify` on the (already key-sorted) tree: standard JSON literal
rules, arrays and objects in element/field order with no whitespace. -/
def jsonStringify : JVal → String
  | .jnull => "null"
  | .jbool true => "true"
  | .jbool false => "false"
  | .jint n => toString n
  | .jstr s => jsonQuote s
  | .jarr xs =>
    "[" ++ String.intercalate "," (xs.attach.map (fun x => jsonStringify x.1)) ++ "]"
  | .jobj fs =>
    "\x7b" ++ String.intercalate ","
      (fs.attach.map (fun kv => jsonQuote kv.1.1 ++ ":" ++ jsonStringify kv.1.2)) ++ "\x7d"
termination_by v => sizeOf v
decreasing_by
  · have := List.sizeOf_lt_of_mem x.2
    simp only [JVal.jarr.sizeOf_spec]
    omega
  · have := sizeOf_snd_lt_of_mem_fields kv.2
    simp only [JVal.jobj.sizeOf_spec]
    omega

/-- Model of `canon(obj) = JSON.stringify(sortKeysDeep(obj))`. -/
def canon (v : JVal) : String := jsonStringify (sortKeysDeep v)

/-! ### Key-order equivalence -/

/-- Relation `PEq O O'`: `O'` carries the same key-to-value mapping as `O`, with each
object's (duplicate-free, as in every JS object) field list permuted at will,
recursively.  The `jobj` constructor routes through an intermediate list `hs`:
first the values are rewritten pointwise (`PEq` on values, keys unchanged),
then the field list is permuted. -/
inductive PEq : JVal → JVal → Prop where
  | jnull : PEq .jnull .jnull
  | jbool (b : Bool) : PEq (.jbool b) (.jbool b)
  | jint (n : Int) : PEq (.jint n) (.jint n)
  | jstr (s : String) : PEq (.jstr s) (.jstr s)
  | jarr {xs ys : List JVal} : List.Forall₂ PEq xs ys → PEq (.jarr xs) (.jarr ys)
  | jobj {fs hs gs : List (String × JVal)} :
      (fs.map Prod.fst).Nodup →
      fs.map Prod.fst = hs.map Prod.fst →
      List.Forall₂ PEq (fs.map Prod.snd) (hs.map Prod.snd) →
      hs.Perm gs →
      PEq (.jobj fs) (.jobj gs)

instance keyLeTotal : IsTotal (String × JVal) (fun a b => a.1 ≤ b.1) :=
  ⟨fun a b => le_total a.1 b.1⟩

instance keyLeTrans : IsTrans (String × JVal) (fun a b => a.1 ≤ b.1) :=
  ⟨fun _ _ _ h1 h2 => le_trans h1 h2⟩

instance keyLtAntisymm : IsAntisymm (String × JVal) (fun a b => a.1 < b.1) :=
  ⟨fun _ _ h1 h2 => (lt_asymm h1 h2).elim⟩

/-- On a field list with duplicate-free keys, the key sort is sorted in the
strict key order. -/
theorem keySort_strictSorted (fs : List (String × JVal)) (hnd : (fs.map Prod.fst).Nodup) :
    (keySort fs).Pairwise (fun a b => a.1 < b.1) := by
  have hs : (keySort fs).Pairwise (fun a b => a.1 ≤ b.1) := by
    have h0 := List.sorted_insertionSort (fun (a b : String × JVal) => a.1 ≤ b.1) fs
    simpa [keySort, List.Sorted] using h0
  have hperm : (keySort fs).Perm fs := List.perm_insertionSort _ fs
  have hnd' : ((keySort fs).map Prod.fst).Nodup :=
    ((hperm.map Prod.fst).nodup_iff).mpr hnd
  have hne : (keySort fs).Pairwise (fun a b => a.1 ≠ b.1) := List.pairwise_map.mp hnd'
  exact (hs.and hne).imp (fun h => lt_of_le_of_ne h.1 h.2)

theorem forall₂_sortEq_of_mem {l₁ l₂ : List JVal} (h : List.Forall₂ PEq l₁ l₂)
    (hi : ∀ v w, v ∈ l₁ → PEq v w → sortKeysDeep v = sortKeysDeep w) :
    List.Forall₂ (fun v w => sortKeysDeep v = sortKeysDeep w) l₁ l₂ := by
  induction h with
  | nil => exact .nil
  | cons hpq htail ih =>
    exact .cons (hi _ _ (List.mem_cons_self _ _) hpq)
      (ih (fun v w hv => hi v w (List.mem_cons_of_mem _ hv)))

theorem map_eq_of_forall₂_sortEq {l₁ l₂ : List JVal}
    (h : List.Forall₂ (fun v w => sortKeysDeep v = sortKeysDeep w) l₁ l₂) :
    l₁.map sortKeysDeep = l₂.map sortKeysDeep := by
  induction h with
  | nil => rfl
  | cons hpq _ ih => simp [hpq, ih]

theorem fields_map_eq {fs hs : List (String × JVal)}
    (hkeys : fs.map Prod.fst = hs.map Prod.fst)
    (hvals : List.Forall₂ (fun v w => sortKeysDeep v = sortKeysDeep w)
      (fs.map Prod.snd) (hs.map Prod.snd)) :
    fs.map (fun kv => (kv.1, sortKeysDeep kv.2)) =
      hs.map (fun kv => (kv.1, sortKeysDeep kv.2)) := by
  induction fs generalizing hs with
  | nil =>
    cases hs with
    | nil => rfl
    | cons b hs => simp at hkeys
  | cons a fs ih =>
    cases hs with
    | nil => simp at hkeys
    | cons b hs =>
      simp only [List.map_cons, List.cons.injEq] at hkeys hvals ⊢
      cases hvals with
      | cons hv htail =>
        exact ⟨by rw [hkeys.1, hv], ih hkeys.2 htail⟩

/-- Core of key-order invariance: `PEq`-related trees have identical deep key
sorts.  Strong induction on the size of the left tree. -/
theorem pEq_sortKeysDeep : ∀ (n : Nat) (v w : JVal), sizeOf v ≤ n → PEq v w →
    sortKeysDeep v = sortKeysDeep w := by
  intro n
  induction n with
  | zero =>
    intro v w hle h
    cases v <;> simp_arith at hle
  | succ n ih =>
    intro v w hle h
    cases h with
    | jnull => rfl
    | jbool b => rfl
    | jint k => rfl
    | jstr s => rfl
    | @jarr xs ys hf =>
      rw [sortKeysDeep_jarr, sortKeysDeep_jarr]
      congr 1
      apply map_eq_of_forall₂_sortEq
      apply forall₂_sortEq_of_mem hf
      intro a b ha hpeq
      refine ih a b ?_ hpeq
      have h1 := List.sizeOf_lt_of_mem ha
      have h2 : 1 + sizeOf xs ≤ n + 1 := by
        simpa [JVal.jarr.sizeOf_spec] using hle
      omega
    | @jobj fs hs gs hnd hkeys hvals hperm =>
      rw [sortKeysDeep_jobj, sortKeysDeep_jobj]
      congr 1
      have hsz : ∀ v ∈ fs.map Prod.snd, sizeOf v ≤ n := by
        intro v hv
        rcases List.mem_map.mp hv with ⟨kv, hkv, rfl⟩
        have h1 := sizeOf_snd_lt_of_mem_fields hkv
        have h2 : 1 + sizeOf fs ≤ n + 1 := by
          simpa [JVal.jobj.sizeOf_spec] using hle
        omega
      have hvals' : List.Forall₂ (fun v w => sortKeysDeep v = sortKeysDeep w)
          (fs.map Prod.snd) (hs.map Prod.snd) :=
        forall₂_sortEq_of_mem hvals (fun v w hv hpeq => ih v w (hsz v hv) hpeq)
      have hmapeq : fs.map (fun kv => (kv.1, sortKeysDeep kv.2)) =
          hs.map (fun kv => (kv.1, sortKeysDeep kv.2)) := fields_map_eq hkeys hvals'
      have hndg : (gs.map Prod.fst).Nodup := by
        refine ((hperm.map Prod.fst).nodup_iff).mp ?_
        rw [← hkeys]
        exact hnd
      have hpermAB : ((keySort fs).map (fun kv => (kv.1, sortKeysDeep kv.2))).Perm
          ((keySort gs).map (fun kv => (kv.1, sortKeysDeep kv.2))) := by
        refine ((List.perm_insertionSort _ fs).map _).trans ?_
        rw [hmapeq]
        exact (hperm.map _).trans ((List.perm_insertionSort _ gs).map _).symm
      have hsortedA : ((keySort fs).map (fun kv => (kv.1, sortKeysDeep kv.2))).Pairwise
          (fun a b => a.1 < b.1) := by
        rw [List.pairwise_map]
        exact keySort_strictSorted fs hnd
      have hsortedB : ((keySort gs).map (fun kv => (kv.1, sortKeysDeep kv.2))).Pairwise
          (fun a b => a.1 < b.1) := by
        rw [List.pairwise_map]
        exact keySort_strictSorted gs hndg
      exact List.eq_of_perm_of_sorted hpermAB hsortedA hsortedB

/-! ## Claim C7 — key-order invariance of canonicalization -/

/-- Claim C7.  For every JSON-like value `O` and every recursive key-permutation
`O'` of it (same key-to-value mapping; JS object key lists are duplicate-free),
`canon` produces byte-for-byte identical strings: sorting keys deeply erases
the permutation before `JSON.stringify` runs. -/
theorem c7_canon_key_order_invariance (O O' : JVal) (h : PEq O O') : canon O = canon O' := by
  unfold canon
  rw [pEq_sortKeysDeep (sizeOf O) O O' (le_refl _) h]

/-- Witness for C7: a two-level object with both field lists permuted. -/
theorem c7_canon_key_order_invariance_witness :
    PEq (.jobj [("b", .jint 1), ("a", .jobj [("y", .jstr "2"), ("x", .jnull)])])
      (.jobj [("a", .jobj [("x", .jnull), ("y", .jstr "2")]), ("b", .jint 1)]) ∧
    canon (.jobj [("b", .jint 1), ("a", .jobj [("y", .jstr "2"), ("x", .jnull)])]) =
      canon (.jobj [("a", .jobj [("x", .jnull), ("y", .jstr "2")]), ("b", .jint 1)]) := by
  have hinner : PEq (.jobj [("y", .jstr "2"), ("x", .jnull)])
      (.jobj [("x", .jnull), ("y", .jstr "2")]) := by
    refine @PEq.jobj _ [("y", .jstr "2"), ("x", .jnull)] _ (by decide) rfl ?_
      (List.Perm.swap _ _ _)
    exact .cons (.jstr "2") (.cons .jnull .nil)
  have h : PEq (.jobj [("b", .jint 1), ("a", .jobj [("y", .jstr "2"), ("x", .jnull)])])
      (.jobj [("a", .jobj [("x", .jnull), ("y", .jstr "2")]), ("b", .jint 1)]) := by
    refine @PEq.jobj _
      [("b", .jint 1), ("a", .jobj [("x", .jnull), ("y", .jstr "2")])] _
      (by decide) rfl ?_ (List.Perm.swap _ _ _)
    exact .cons (.jint 1) (.cons hinner .nil)
  exact ⟨h, c7_canon_key_order_invariance _ _ h⟩

/-! ## UTF-16 views of Lean strings -/

/-- The UTF-16 code units of one character (astral characters take a
surrogate pair). -/
def utf16UnitsOfChar (c : Char) : List Nat :=
  if c.toNat < 0x10000 then [c.toNat]
  else [0xd800 + (c.toNat - 0x10000) / 0x400, 0xdc00 + (c.toNat - 0x10000) % 0x400]

/-- The UTF-16 code units of a string — what a JS string is. -/
def utf16Units (s : String) : CUStr := (s.data.map utf16UnitsOfChar).flatten

/-- JS `s.length`: the number of UTF-16 code units. -/
def utf16Len (s : String) : Nat := (utf16Units s).length

/-! ## The pack verifier (`scxq2PackVerify`, verify module)

The pack, dictionary, block and proof objects arrive as parsed JSON: `JVal`
trees.  `sha256HexUtf8` is injected as `hash : CUStr → String` (it hashes the
UTF-8 bytes of a JS string; the verifier uses digests only through string
comparison, so the model treats the digest function as an arbitrary
parameter, applied to the string's code units). -/

/-- JS truthiness (`!x` is its negation).  `undefined` is handled at the
`Option JVal` level by `truthyO`. -/
def truthy : JVal → Bool
  | .jnull => false
  | .jbool b => b
  | .jint n => decide (n ≠ 0)
  | .jstr s => decide (s ≠ "")
  | .jarr _ => true
  | .jobj _ => true

/-- Property read `v[k]`: `none` is JS `undefined`.  Arrays and primitives
have none of the (non-numeric) fields read by the verifier. -/
def jget : JVal → String → Option JVal
  | .jobj fs, k => List.lookup k fs
  | _, _ => none

def truthyO : Option JVal → Bool
  | none => false
  | some v => truthy v

def jgetD (v : JVal) (k : String) : JVal := (jget v k).getD .jnull

/-- Test `typeof v === "object"` for a non-`undefined` value (`null`, objects and
arrays — the verifier always conjoins this with truthiness). -/
def isObjLike : JVal → Bool
  | .jobj _ => true
  | .jarr _ => true
  | .jnull => true
  | _ => false

/-- Model of `Object.keys`. -/
def jkeys : JVal → List String
  | .jobj fs => fs.map Prod.fst
  | .jarr xs => (List.range xs.length).map toString
  | _ => []

/-- Comparison `v === "lit"` for a property read: true exactly when the slot holds that
very string. -/
def isStrVal : Option JVal → String → Bool
  | some (.jstr s), t => s = t
  | _, _ => false

/-- Membership test `allowed.includes(v)` for a string list against a property read. -/
def modeAllowed (allowed : List String) : Option JVal → Bool
  | some (.jstr s) => allowed.contains s
  | _ => false

/-- Test `k in v`. -/
def hasField : JVal → String → Bool
  | .jobj fs, k => fs.any (fun kv => kv.1 = k)
  | _, _ => false

/-- JS `===` on two property reads, as the dictionary-linkage check uses it.
Primitives compare by value; two distinct object/array slots are distinct
references (the embedding has no sharing), hence unequal. -/
def jsEq : Option JVal → Option JVal → Bool
  | some .jnull, some .jnull => true
  | some (.jbool a), some (.jbool b) => a = b
  | some (.jint a), some (.jint b) => a = b
  | some (.jstr a), some (.jstr b) => a = b
  | none, none => true
  | _, _ => false

/-- Comparison `v === true`. -/
def isTrueVal : Option JVal → Bool
  | some (.jbool true) => true
  | _ => false

/-- Copy without one key, `{...obj}` followed by `delete copy[k]` (`copyMinus`/`strip`): the object
without that key.  (Reached only for objects: every value hashed this way has
already passed an `@type` string-field check.) -/
def copyMinus (v : JVal) (k : String) : JVal :=
  match v with
  | .jobj fs => .jobj (fs.filter (fun kv => ¬ kv.1 = k))
  | _ => v

def isDigitChar (c : Char) : Bool := 48 ≤ c.toNat && c.toNat ≤ 57

def takeDigits : Nat → List Char → Option (List Char)
  | 0, cs => some cs
  | n + 1, c :: cs => if isDigitChar c then takeDigits n cs else none
  | _ + 1, [] => none

def expectChar (c : Char) : List Char → Option (List Char)
  | d :: cs => if d = c then some cs else none
  | [] => none

/-- One-or-more digits followed by exactly `"Z"`. -/
def digits1Z : List Char → Bool
  | [] => false
  | c :: cs => isDigitChar c && (cs = ['Z'] || digits1Z cs)

/-- The tail after the seconds: `Z`, or `.` then digits then `Z`. -/
def isoTail : List Char → Bool
  | ['Z'] => true
  | '.' :: cs => digits1Z cs
  | _ => false

/-- The regex `^\d{4}-\d{2}-\d{2}T\d{2}:\d{2}:\d{2}(\.\d+)?Z$` on a string
value (`isoUtcLike`: non-strings fail). -/
def isoUtcLike (v : JVal) : Bool :=
  match v with
  | .jstr s =>
    match (((((((((((takeDigits 4 s.data).bind (expectChar '-')).bind
        (takeDigits 2)).bind (expectChar '-')).bind (takeDigits 2)).bind
        (expectChar 'T')).bind (takeDigits 2)).bind (expectChar ':')).bind
        (takeDigits 2)).bind (expectChar ':')).bind (takeDigits 2)) with
    | none => false
    | some rest => isoTail rest
  | _ => false

/-! ### Base64 -/

/-- The extended alphabet of the verifier's regex `^[A-Za-z0-9+/=]+$`. -/
def isB64Char (c : Char) : Bool :=
  (65 ≤ c.toNat && c.toNat ≤ 90) || (97 ≤ c.toNat && c.toNat ≤ 122) ||
    (48 ≤ c.toNat && c.toNat ≤ 57) || c = '+' || c = '/' || c = '='

def b64Val (c : Char) : Nat :=
  if 65 ≤ c.toNat && c.toNat ≤ 90 then c.toNat - 65
  else if 97 ≤ c.toNat && c.toNat ≤ 122 then c.toNat - 71
  else if 48 ≤ c.toNat && c.toNat ≤ 57 then c.toNat + 4
  else if c = '+' then 62
  else if c = '/' then 63
  else 0

/-- Groups of four sextets become three bytes; a trailing group of two or
three sextets yields one or two bytes (leftover bits dropped); a lone sextet
yields nothing. -/
def b64Quads : List Nat → List Nat
  | a :: b :: c :: d :: rest =>
    (a * 4 + b / 16) :: ((b % 16) * 16 + c / 4) :: ((c % 4) * 64 + d) :: b64Quads rest
  | [a, b] => [a * 4 + b / 16]
  | [a, b, c] => [a * 4 + b / 16, (b % 16) * 16 + c / 4]
  | _ => []

/-- Node's forgiving base64 decoder, `Buffer.from(s, "base64")`: decoding
stops at the first `=`, other non-alphabet characters are skipped, leftover
bits that do not fill a byte are dropped, and the call never throws. -/
def nodeB64Decode (s : String) : List Nat :=
  b64Quads (((s.data.takeWhile (fun c => c ≠ '=')).filter
    (fun c => isB64Char c)).map b64Val)

/-- Model of `strictB64Decode(b64)`: `null` for non-strings, the empty string, or a
string with a character outside `[A-Za-z0-9+/=]`; otherwise the (never
throwing) `Buffer.from(b64, "base64")` bytes.  Note the regex allows `=`
anywhere, so padding is *not* validated. -/
def strictB64Decode (v : JVal) : Option (List Nat) :=
  match v with
  | .jstr s =>
    if s.length = 0 then none
    else if s.data.all isB64Char then some (nodeB64Decode s) else none
  | _ => none

/-! ### Policy -/

/-- The verifier's policy record (`SCXQ2_DEFAULT_POLICY` shape).  Callers'
incomplete option objects are merged over the default by the source; the model
takes the merged record. -/
structure SCXQ2Policy where
  requireRoundtrip : Bool
  requireProof : Bool
  maxDictEntries : Nat
  maxDictEntryUnits : Nat
  maxBlocks : Nat
  maxBlockB64Bytes : Nat
  maxOutputUnits : Nat
  allowEdges : Bool
  allowUnknownPackFields : Bool
  allowUnknownBlockFields : Bool
  allowedModes : List String
  allowedEncodings : List String
  failOnFirstError : Bool

def SCXQ2_DEFAULT_POLICY : SCXQ2Policy :=
  { requireRoundtrip := true, requireProof := true, maxDictEntries := 65535,
    maxDictEntryUnits := 1048576, maxBlocks := 1024, maxBlockB64Bytes := 67108864,
    maxOutputUnits := 134217728, allowEdges := true, allowUnknownPackFields := true,
    allowUnknownBlockFields := true, allowedModes := ["SCXQ2-DICT16-B64"],
    allowedEncodings := ["SCXQ2-1"], failOnFirstError := true }

/-- An error as `err(code, phase, message, at)` builds it: the claims
constrain `code` and `phase`; `message` and `at` carry no decision
relevance and are omitted. -/
structure VErr where
  code : String
  phase : String
deriving DecidableEq

/-- The verify result: `ok(packSha, dictSha, blocks)` or `fail(err)`. -/
inductive VerifyResult where
  | vok (packSha dictSha : JVal) (blocks : Nat)
  | vfail (e : VErr)

def failsWithCode : VerifyResult → String → Bool
  | .vfail e, c => e.code = c
  | _, _ => false

def KNOWN_PACK_FIELDS : List String :=
  ["@type", "@version", "mode", "encoding", "created_utc",
   "dict", "blocks", "proof", "pack_sha256_canon"]

def KNOWN_BLOCK_FIELDS : List String :=
  ["@type", "@version", "mode", "encoding",
   "lane_id", "source_sha256_utf8", "dict_sha256_canon",
   "b64", "block_sha256_canon", "edges", "ops",
   "created_utc", "original_bytes_utf8"]

def hasUnknownFields (v : JVal) (known : List String) : Bool :=
  (jkeys v).any (fun k => ! known.contains k)

/-- Reads `pack.blocks` as an array, when it is one. -/
def blocksOf (pack : JVal) : Option (List JVal) :=
  match jget pack "blocks" with
  | some (.jarr bls) => some bls
  | _ => none

/-! ### Phase 1 — pack structure -/

/-- The `blocks`/`proof` checks closing phase 1 (split out of
`checkPackStructure` to keep each definition's control flow small). -/
def checkPackBlocksProof (P : SCXQ2Policy) (pack : JVal) : Option VErr :=
  match blocksOf pack with
  | none => some ⟨"scxq2.error.pack_blocks_missing", "pack"⟩
  | some bls =>
    if bls.length < 1 then some ⟨"scxq2.error.pack_blocks_missing", "pack"⟩
    else if bls.length > P.maxBlocks then some ⟨"scxq2.error.decode_input_limit", "pack"⟩
    else if P.requireProof && ! truthyO (jget pack "proof") then
      some ⟨"scxq2.error.pack_proof_missing", "pack"⟩
    else none

def checkPackStructure (P : SCXQ2Policy) (pack : JVal) : Option VErr :=
  if ! (truthy pack && isObjLike pack) then some ⟨"scxq2.error.pack_missing", "pack"⟩
  else if ! isStrVal (jget pack "@type") "scxq2.pack" then
    some ⟨"scxq2.error.pack_type_invalid", "pack"⟩
  else if ! isStrVal (jget pack "@version") "1.0.0" then
    some ⟨"scxq2.error.pack_version_unsupported", "pack"⟩
  else if ! modeAllowed P.allowedModes (jget pack "mode") then
    some ⟨"scxq2.error.pack_mode_mismatch", "pack"⟩
  else if ! modeAllowed P.allowedEncodings (jget pack "encoding") then
    some ⟨"scxq2.error.pack_encoding_mismatch", "pack"⟩
  else if (P.allowUnknownPackFields = false) && hasUnknownFields pack KNOWN_PACK_FIELDS then
    some ⟨"scxq2.error.pack_field_forbidden", "pack"⟩
  else if hasField pack "created_utc" && ! isoUtcLike (jgetD pack "created_utc") then
    some ⟨"scxq2.error.pack_created_utc_invalid", "pack"⟩
  else if ! truthyO (jget pack "dict") then some ⟨"scxq2.error.dict_missing", "dict"⟩
  else checkPackBlocksProof P pack

/-! ### Phase 2 — dictionary structure -/

def checkDictEntries (P : SCXQ2Policy) : List JVal → Option VErr
  | [] => none
  | e :: es =>
    match e with
    | .jstr s =>
      if utf16Len s > P.maxDictEntryUnits then
        some ⟨"scxq2.error.dict_entry_exceeds_limit", "dict"⟩
      else checkDictEntries P es
    | _ => some ⟨"scxq2.error.dict_entry_type_invalid", "dict"⟩

def checkDictStructure (P : SCXQ2Policy) (dict : JVal) : Option VErr :=
  if ! (truthy dict && isObjLike dict) then some ⟨"scxq2.error.dict_type_invalid", "dict"⟩
  else if ! isStrVal (jget dict "@type") "scxq2.dict" then
    some ⟨"scxq2.error.dict_type_invalid", "dict"⟩
  else if ! isStrVal (jget dict "@version") "1.0.0" then
    some ⟨"scxq2.error.dict_version_unsupported", "dict"⟩
  else if ! modeAllowed P.allowedModes (jget dict "mode") then
    some ⟨"scxq2.error.pack_mode_mismatch", "dict"⟩
  else if ! modeAllowed P.allowedEncodings (jget dict "encoding") then
    some ⟨"scxq2.error.pack_encoding_mismatch", "dict"⟩
  else
    match jget dict "dict" with
    | some (.jarr entries) =>
      if entries.length > P.maxDictEntries then
        some ⟨"scxq2.error.dict_size_exceeds_limit", "dict"⟩
      else
        match checkDictEntries P entries with
        | some e => some e
        | none =>
          if ! truthyO (jget dict "dict_sha256_canon") then
            some ⟨"scxq2.error.dict_sha_missing", "canon"⟩
          else none
    | _ => some ⟨"scxq2.error.dict_entry_type_invalid", "dict"⟩

/-! ### Phase 3 — block structure -/

def isNonemptyStr : Option JVal → Bool
  | some (.jstr s) => ! (s.length = 0)
  | _ => false

def checkBlock (P : SCXQ2Policy) (dictSha : Option JVal) (b : JVal) : Option VErr :=
  if ! (truthy b && isObjLike b && isStrVal (jget b "@type") "scxq2.block") then
    some ⟨"scxq2.error.block_type_invalid", "block"⟩
  else if ! modeAllowed P.allowedModes (jget b "mode") then
    some ⟨"scxq2.error.block_mode_mismatch", "block"⟩
  else if ! modeAllowed P.allowedEncodings (jget b "encoding") then
    some ⟨"scxq2.error.block_encoding_mismatch", "block"⟩
  else if ! isNonemptyStr (jget b "b64") then
    some ⟨"scxq2.error.block_b64_missing", "block"⟩
  else if ! truthyO (jget b "dict_sha256_canon") then
    some ⟨"scxq2.error.block_dict_link_missing", "block"⟩
  else if ! jsEq (jget b "dict_sha256_canon") dictSha then
    some ⟨"scxq2.error.block_dict_link_mismatch", "block"⟩
  else if ! truthyO (jget b "block_sha256_canon") then
    some ⟨"scxq2.error.block_sha_missing", "canon"⟩
  else if P.requireRoundtrip && ! truthyO (jget b "source_sha256_utf8") then
    some ⟨"scxq2.error.block_source_sha_missing", "block"⟩
  else if (P.allowUnknownBlockFields = false) && hasUnknownFields b KNOWN_BLOCK_FIELDS then
    some ⟨"scxq2.error.pack_field_forbidden", "block"⟩
  else if (P.allowEdges = false) && hasField b "edges" then
    some ⟨"scxq2.error.policy_disabled_feature", "block"⟩
  else none

def checkBlocks (P : SCXQ2Policy) (dictSha : Option JVal) : List JVal → Option VErr
  | [] => none
  | b :: bs =>
    match checkBlock P dictSha b with
    | some e => some e
    | none => checkBlocks P dictSha bs

/-! ### Phase 4 — canonical hash verification -/

def checkBlockHashes (hash : CUStr → String) : List JVal → Option VErr
  | [] => none
  | b :: bs =>
    if ! isStrVal (jget b "block_sha256_canon")
        (hash (utf16Units (canon (copyMinus b "block_sha256_canon")))) then
      some ⟨"scxq2.error.block_sha_mismatch", "canon"⟩
    else checkBlockHashes hash bs

def checkHashes (hash : CUStr → String) (pack dict : JVal) (blocks : List JVal) :
    Option VErr :=
  if ! truthyO (jget pack "pack_sha256_canon") then
    some ⟨"scxq2.error.pack_sha_missing", "canon"⟩
  else if ! isStrVal (jget pack "pack_sha256_canon")
      (hash (utf16Units (canon (copyMinus pack "pack_sha256_canon")))) then
    some ⟨"scxq2.error.pack_sha_mismatch", "canon"⟩
  else if ! isStrVal (jget dict "dict_sha256_canon")
      (hash (utf16Units (canon (copyMinus dict "dict_sha256_canon")))) then
    some ⟨"scxq2.error.dict_sha_mismatch", "canon"⟩
  else checkBlockHashes hash blocks

/-! ### Phase 5 — base64 decode, decode law, roundtrip -/

def decodeKindCode : DecodeErrKind → String
  | .invalid_byte => "scxq2.error.decode_invalid_byte"
  | .truncated_sequence => "scxq2.error.decode_truncated_sequence"
  | .dict_index_oob => "scxq2.error.decode_dict_index_oob"
  | .dict_entry_invalid => "scxq2.error.decode_dict_entry_invalid"
  | .output_limit => "scxq2.error.decode_output_limit"

/-- The decoder's view of `dict.dict` (an array by phase 2): string entries
as code units, non-strings as invalid entries. -/
def decDictOf : JVal → DecDict
  | .jarr es => es.map (fun e =>
      match e with
      | .jstr s => some (utf16Units s)
      | _ => none)
  | _ => []

def checkBlockDecode (hash : CUStr → String) (P : SCXQ2Policy) (dictArr : DecDict)
    (b : JVal) : Option VErr :=
  match strictB64Decode (jgetD b "b64") with
  | none => some ⟨"scxq2.error.block_b64_invalid", "block"⟩
  | some bytes =>
    if bytes.length > P.maxBlockB64Bytes then some ⟨"scxq2.error.decode_input_limit", "decode"⟩
    else
      match scxq2DecodeUtf16 dictArr bytes P.maxOutputUnits with
      | .err k _ => some ⟨decodeKindCode k, "decode"⟩
      | .ok value =>
        if P.requireRoundtrip then
          if ! isStrVal (jget b "source_sha256_utf8") (hash value) then
            some ⟨"scxq2.error.proof_roundtrip_sha_mismatch", "proof"⟩
          else none
        else none

def checkBlocksDecode (hash : CUStr → String) (P : SCXQ2Policy) (dictArr : DecDict) :
    List JVal → Option VErr
  | [] => none
  | b :: bs =>
    match checkBlockDecode hash P dictArr b with
    | some e => some e
    | none => checkBlocksDecode hash P dictArr bs

/-! ### Phase 6 — proof object -/

def PROOF_WITNESS_FIELDS : List String :=
  ["engine", "source_sha256_utf8", "dict_sha256_canon", "block_sha256_canon",
   "roundtrip_sha256_utf8"]

def checkProofWitness (p : JVal) : List String → Option VErr
  | [] => none
  | f :: fs =>
    if ! truthyO (jget p f) then some ⟨"scxq2.error.proof_witness_missing", "proof"⟩
    else checkProofWitness p fs

def checkProof (P : SCXQ2Policy) (proof : Option JVal) : Option VErr :=
  if ! P.requireProof then none
  else if ! (truthyO proof && isObjLike (proof.getD .jnull)) then
    some ⟨"scxq2.error.proof_type_invalid", "proof"⟩
  else if ! isStrVal ((proof.getD .jnull |> jget) "@type") "cc.proof" then
    some ⟨"scxq2.error.proof_type_invalid", "proof"⟩
  else if ! isStrVal (jget (proof.getD .jnull) "@version") "1.0.0" then
    some ⟨"scxq2.error.proof_version_unsupported", "proof"⟩
  else if ! isTrueVal (jget (proof.getD .jnull) "ok") then
    some ⟨"scxq2.error.proof_ok_false", "proof"⟩
  else checkProofWitness (proof.getD .jnull) PROOF_WITNESS_FIELDS

/-! ### The verifier -/

/-- Model of `scxq2PackVerify(pack, opts)` with the merged policy `P` and the digest
function injected.  Strict fail-first ordering: the first check to fail
anywhere in phases 1–6 yields the sole reported error. -/
def scxq2PackVerify (hash : CUStr → String) (pack : JVal) (P : SCXQ2Policy) : VerifyResult :=
  match checkPackStructure P pack with
  | some e => .vfail e
  | none =>
    match checkDictStructure P (jgetD pack "dict") with
    | some e => .vfail e
    | none =>
      match checkBlocks P (jget (jgetD pack "dict") "dict_sha256_canon")
          ((blocksOf pack).getD []) with
      | some e => .vfail e
      | none =>
        match checkHashes hash pack (jgetD pack "dict") ((blocksOf pack).getD []) with
        | some e => .vfail e
        | none =>
          match checkBlocksDecode hash P (decDictOf (jgetD (jgetD pack "dict") "dict"))
              ((blocksOf pack).getD []) with
          | some e => .vfail e
          | none =>
            match checkProof P (jget pack "proof") with
            | some e => .vfail e
            | none =>
              .vok (jgetD pack "pack_sha256_canon")
                (jgetD (jgetD pack "dict") "dict_sha256_canon")
                ((blocksOf pack).getD []).length

/-! ### The one source of `dict_size_exceeds_limit`

Only the phase-2 size check can emit `dict_size_exceeds_limit`; the following
lemmas walk every other check site. -/

theorem checkPackBlocksProof_ne_size (P : SCXQ2Policy) (pack : JVal) (e : VErr)
    (h : checkPackBlocksProof P pack = some e) :
    e.code ≠ "scxq2.error.dict_size_exceeds_limit" := by
  unfold checkPackBlocksProof at h
  iterate 5 (all_goals (try split at h))
  all_goals first
    | (cases h; simp; done)
    | cases h

set_option maxHeartbeats 1600000 in
theorem checkPackStructure_ne_size (P : SCXQ2Policy) (pack : JVal) (e : VErr)
    (h : checkPackStructure P pack = some e) :
    e.code ≠ "scxq2.error.dict_size_exceeds_limit" := by
  unfold checkPackStructure at h
  iterate 9 (all_goals (try split at h))
  all_goals first
    | (cases h; simp; done)
    | exact checkPackBlocksProof_ne_size P pack e h
    | cases h

theorem checkDictEntries_ne_size (P : SCXQ2Policy) (es : List JVal) (e : VErr)
    (h : checkDictEntries P es = some e) :
    e.code ≠ "scxq2.error.dict_size_exceeds_limit" := by
  induction es with
  | nil => cases h
  | cons x xs ih =>
    unfold checkDictEntries at h
    iterate 4 (all_goals (try split at h))
    all_goals first
      | (cases h; simp; done)
      | exact ih h
      | cases h

theorem checkDictStructure_size (P : SCXQ2Policy) (dict : JVal) (e : VErr)
    (h : checkDictStructure P dict = some e)
    (hc : e.code = "scxq2.error.dict_size_exceeds_limit") :
    ∃ es, jget dict "dict" = some (.jarr es) ∧ P.maxDictEntries < es.length := by
  unfold checkDictStructure at h
  iterate 10 (all_goals (try split at h))
  all_goals first
    | (cases h; revert hc; simp; done)
    | (cases h; exact absurd hc (checkDictEntries_ne_size P _ _ (by assumption)))
    | (cases h; exact ⟨_, by assumption, by omega⟩)
    | cases h

set_option maxHeartbeats 1600000 in
theorem checkBlock_ne_size (P : SCXQ2Policy) (d : Option JVal) (b : JVal) (e : VErr)
    (h : checkBlock P d b = some e) :
    e.code ≠ "scxq2.error.dict_size_exceeds_limit" := by
  unfold checkBlock at h
  iterate 12 (all_goals (try split at h))
  all_goals first
    | (cases h; simp; done)
    | cases h

theorem checkBlocks_ne_size (P : SCXQ2Policy) (d : Option JVal) (bs : List JVal) (e : VErr)
    (h : checkBlocks P d bs = some e) :
    e.code ≠ "scxq2.error.dict_size_exceeds_limit" := by
  induction bs with
  | nil => cases h
  | cons b bs ih =>
    unfold checkBlocks at h
    split at h
    · cases h; exact checkBlock_ne_size P d b _ (by assumption)
    · exact ih h

theorem checkBlockHashes_ne_size (hash : CUStr → String) (bs : List JVal) (e : VErr)
    (h : checkBlockHashes hash bs = some e) :
    e.code ≠ "scxq2.error.dict_size_exceeds_limit" := by
  induction bs with
  | nil => cases h
  | cons b bs ih =>
    unfold checkBlockHashes at h
    split at h
    · cases h; simp
    · exact ih h

theorem checkHashes_ne_size (hash : CUStr → String) (pack dict : JVal) (bs : List JVal)
    (e : VErr) (h : checkHashes hash pack dict bs = some e) :
    e.code ≠ "scxq2.error.dict_size_exceeds_limit" := by
  unfold checkHashes at h
  iterate 4 (all_goals (try split at h))
  all_goals first
    | (cases h; simp; done)
    | exact checkBlockHashes_ne_size hash bs e h
    | cases h

theorem decodeKindCode_ne_size (k : DecodeErrKind) :
    decodeKindCode k ≠ "scxq2.error.dict_size_exceeds_limit" := by
  cases k <;> simp [decodeKindCode]

theorem checkBlockDecode_ne_size (hash : CUStr → String) (P : SCXQ2Policy)
    (dictArr : DecDict) (b : JVal) (e : VErr) (h : checkBlockDecode hash P dictArr b = some e) :
    e.code ≠ "scxq2.error.dict_size_exceeds_limit" := by
  unfold checkBlockDecode at h
  iterate 6 (all_goals (try split at h))
  all_goals first
    | (cases h; simp; done)
    | (cases h; exact decodeKindCode_ne_size _)
    | cases h

theorem checkBlocksDecode_ne_size (hash : CUStr → String) (P : SCXQ2Policy)
    (dictArr : DecDict) (bs : List JVal) (e : VErr)
    (h : checkBlocksDecode hash P dictArr bs = some e) :
    e.code ≠ "scxq2.error.dict_size_exceeds_limit" := by
  induction bs with
  | nil => cases h
  | cons b bs ih =>
    unfold checkBlocksDecode at h
    split at h
    · cases h; exact checkBlockDecode_ne_size hash P dictArr b _ (by assumption)
    · exact ih h

theorem checkProofWitness_ne_size (p : JVal) (fs : List String) (e : VErr)
    (h : checkProofWitness p fs = some e) :
    e.code ≠ "scxq2.error.dict_size_exceeds_limit" := by
  induction fs with
  | nil => cases h
  | cons f fs ih =>
    unfold checkProofWitness at h
    split at h
    · cases h; simp
    · exact ih h

theorem checkProof_ne_size (P : SCXQ2Policy) (proof : Option JVal) (e : VErr)
    (h : checkProof P proof = some e) :
    e.code ≠ "scxq2.error.dict_size_exceeds_limit" := by
  unfold checkProof at h
  iterate 7 (all_goals (try split at h))
  all_goals first
    | (cases h; simp; done)
    | exact checkProofWitness_ne_size _ _ e h
    | cases h

theorem failsWithCode_vfail (e : VErr) (c : String) :
    failsWithCode (.vfail e) c = (e.code == c) := rfl

/-! ### Concrete packs used in witnesses and counterexamples

`constHash` instantiates the injected digest: the verifier's control flow
depends on digests only through string equality, and with every stored hash
field set to the same string these packs pass phase 4 for this digest
function by construction. -/

def constHash : CUStr → String := fun _ => "h"

def mkDict (entries : List JVal) : JVal :=
  .jobj [("@type", .jstr "scxq2.dict"), ("@version", .jstr "1.0.0"),
    ("mode", .jstr "SCXQ2-DICT16-B64"), ("encoding", .jstr "SCXQ2-1"),
    ("dict", .jarr entries), ("dict_sha256_canon", .jstr "h")]

def mkBlock (b64 : String) : JVal :=
  .jobj [("@type", .jstr "scxq2.block"), ("@version", .jstr "1.0.0"),
    ("mode", .jstr "SCXQ2-DICT16-B64"), ("encoding", .jstr "SCXQ2-1"),
    ("source_sha256_utf8", .jstr "h"), ("dict_sha256_canon", .jstr "h"),
    ("b64", .jstr b64), ("block_sha256_canon", .jstr "h")]

def mkProofObj : JVal :=
  .jobj [("@type", .jstr "cc.proof"), ("@version", .jstr "1.0.0"),
    ("engine", .jstr "asx://cc/engine/scxq2.v1"),
    ("source_sha256_utf8", .jstr "h"), ("dict_sha256_canon", .jstr "h"),
    ("block_sha256_canon", .jstr "h"), ("roundtrip_sha256_utf8", .jstr "h"),
    ("ok", .jbool true)]

def mkPack (entries : List JVal) (b64 : String) (packSha : String) : JVal :=
  .jobj [("@type", .jstr "scxq2.pack"), ("@version", .jstr "1.0.0"),
    ("mode", .jstr "SCXQ2-DICT16-B64"), ("encoding", .jstr "SCXQ2-1"),
    ("dict", mkDict entries), ("blocks", .jarr [mkBlock b64]),
    ("proof", mkProofObj), ("pack_sha256_canon", .jstr packSha)]

/-! ## Claim C4 — dictionary size boundary -/

/-- Claim C4.  Under the default policy (`maxDictEntries = 65535`): a pack whose
phase-1 checks pass and whose dictionary object passes the checks preceding
the phase-2 size check is rejected with `dict_size_exceeds_limit` when its
`dict` array has 65536 entries; and a pack whose `dict` array (when there is
one) has at most 65535 entries is never rejected with that code — the size
check is the code's only source, so the verifier accepts 65535 entries at
that check and proceeds. -/
theorem c4_dict_size_boundary (hash : CUStr → String) (pack : JVal) :
    ((∀ entries,
      checkPackStructure SCXQ2_DEFAULT_POLICY pack = none →
      (truthy (jgetD pack "dict") && isObjLike (jgetD pack "dict")) = true →
      isStrVal (jget (jgetD pack "dict") "@type") "scxq2.dict" = true →
      isStrVal (jget (jgetD pack "dict") "@version") "1.0.0" = true →
      modeAllowed ["SCXQ2-DICT16-B64"] (jget (jgetD pack "dict") "mode") = true →
      modeAllowed ["SCXQ2-1"] (jget (jgetD pack "dict") "encoding") = true →
      jget (jgetD pack "dict") "dict" = some (.jarr entries) →
      entries.length = 65536 →
      scxq2PackVerify hash pack SCXQ2_DEFAULT_POLICY =
        .vfail ⟨"scxq2.error.dict_size_exceeds_limit", "dict"⟩)) ∧
    ((∀ es, jget (jgetD pack "dict") "dict" = some (.jarr es) → es.length ≤ 65535) →
      failsWithCode (scxq2PackVerify hash pack SCXQ2_DEFAULT_POLICY)
        "scxq2.error.dict_size_exceeds_limit" = false) := by
  constructor
  · intro entries h1 hobj ht hv hm he harr hlen
    have hd : checkDictStructure SCXQ2_DEFAULT_POLICY (jgetD pack "dict") =
        some ⟨"scxq2.error.dict_size_exceeds_limit", "dict"⟩ := by
      unfold checkDictStructure
      simp [SCXQ2_DEFAULT_POLICY, hobj, ht, hv, hm, he, harr, hlen]
    simp only [scxq2PackVerify, h1, hd]
  · intro hb
    unfold scxq2PackVerify
    cases h1 : checkPackStructure SCXQ2_DEFAULT_POLICY pack with
    | some e =>
      simp only [failsWithCode_vfail]
      exact beq_eq_false_iff_ne.mpr (checkPackStructure_ne_size _ _ _ h1)
    | none =>
      cases h2 : checkDictStructure SCXQ2_DEFAULT_POLICY (jgetD pack "dict") with
      | some e =>
        simp only [failsWithCode_vfail]
        refine beq_eq_false_iff_ne.mpr ?_
        intro hc
        obtain ⟨es, hes, hlen⟩ := checkDictStructure_size _ _ _ h2 hc
        have hle := hb es hes
        simp [SCXQ2_DEFAULT_POLICY] at hlen
        omega
      | none =>
        cases h3 : checkBlocks SCXQ2_DEFAULT_POLICY
            (jget (jgetD pack "dict") "dict_sha256_canon") ((blocksOf pack).getD []) with
        | some e =>
          simp only [failsWithCode_vfail]
          exact beq_eq_false_iff_ne.mpr (checkBlocks_ne_size _ _ _ _ h3)
        | none =>
          cases h4 : checkHashes hash pack (jgetD pack "dict") ((blocksOf pack).getD []) with
          | some e =>
            simp only [failsWithCode_vfail]
            exact beq_eq_false_iff_ne.mpr (checkHashes_ne_size _ _ _ _ _ h4)
          | none =>
            cases h5 : checkBlocksDecode hash SCXQ2_DEFAULT_POLICY
                (decDictOf (jgetD (jgetD pack "dict") "dict")) ((blocksOf pack).getD []) with
            | some e =>
              simp only [failsWithCode_vfail]
              exact beq_eq_false_iff_ne.mpr (checkBlocksDecode_ne_size _ _ _ _ _ h5)
            | none =>
              cases h6 : checkProof SCXQ2_DEFAULT_POLICY (jget pack "proof") with
              | some e =>
                simp only [failsWithCode_vfail]
                exact beq_eq_false_iff_ne.mpr (checkProof_ne_size _ _ _ h6)
              | none => rfl

set_option maxRecDepth 4096 in
/-- Witness for C4: the rejection half at a 65536-entry dictionary, the
acceptance half at a 65535-entry one (same shape otherwise). -/
theorem c4_dict_size_boundary_witness :
    scxq2PackVerify constHash (mkPack (List.replicate 65536 (.jstr "t")) "QQ==" "h")
      SCXQ2_DEFAULT_POLICY = .vfail ⟨"scxq2.error.dict_size_exceeds_limit", "dict"⟩ ∧
    failsWithCode (scxq2PackVerify constHash
      (mkPack (List.replicate 65535 (.jstr "t")) "QQ==" "h") SCXQ2_DEFAULT_POLICY)
      "scxq2.error.dict_size_exceeds_limit" = false := by
  constructor
  · refine (c4_dict_size_boundary constHash
      (mkPack (List.replicate 65536 (.jstr "t")) "QQ==" "h")).1
      (List.replicate 65536 (.jstr "t")) rfl rfl rfl rfl rfl rfl rfl ?_
    exact List.length_replicate 65536 (JVal.jstr "t")
  · refine (c4_dict_size_boundary constHash
      (mkPack (List.replicate 65535 (.jstr "t")) "QQ==" "h")).2 ?_
    intro es hes
    have h0 : jget (jgetD (mkPack (List.replicate 65535 (.jstr "t")) "QQ==" "h") "dict")
        "dict" = some (.jarr (List.replicate 65535 (.jstr "t"))) := rfl
    rw [h0] at hes
    cases hes
    exact le_of_eq (List.length_replicate 65535 (JVal.jstr "t"))

/-! ## Claim C5 — fail-first pack-hash-mismatch ordering -/

/-- Claim C5, counterexample.  "Replaced by an arbitrary string different from
the recomputed canonical hash" includes the empty string — which is falsy in
JS, so the `!pack.pack_sha256_canon` presence check at the top of phase 4
fires first: the verifier reports `pack_sha_missing`, not the claimed
`pack_sha_mismatch`.  The pack below passes every structural check of phases
1–3 and stores `""`, which differs from the recomputed digest (`"h"` under
`constHash`). -/
theorem c5_counterexample :
    checkPackStructure SCXQ2_DEFAULT_POLICY (mkPack [] "QQ==" "") = none ∧
    checkDictStructure SCXQ2_DEFAULT_POLICY (jgetD (mkPack [] "QQ==" "") "dict") = none ∧
    checkBlocks SCXQ2_DEFAULT_POLICY
      (jget (jgetD (mkPack [] "QQ==" "") "dict") "dict_sha256_canon")
      ((blocksOf (mkPack [] "QQ==" "")).getD []) = none ∧
    jget (mkPack [] "QQ==" "") "pack_sha256_canon" = some (.jstr "") ∧
    "" ≠ constHash (utf16Units (canon (copyMinus (mkPack [] "QQ==" "") "pack_sha256_canon"))) ∧
    scxq2PackVerify constHash (mkPack [] "QQ==" "") SCXQ2_DEFAULT_POLICY =
      .vfail ⟨"scxq2.error.pack_sha_missing", "canon"⟩ :=
  ⟨rfl, rfl, rfl, rfl, by simp [constHash], rfl⟩

/-- Claim C5 (amended).  For every pack passing all structural checks of phases
1–3 whose `pack_sha256_canon` holds an arbitrary **non-empty** string
different from the recomputed canonical digest, the verifier returns exactly
`pack_sha_mismatch` — in particular no dictionary or block hash mismatch is
reported first. -/
theorem c5_pack_sha_mismatch_first (hash : CUStr → String) (pack : JVal) (s : String)
    (h1 : checkPackStructure SCXQ2_DEFAULT_POLICY pack = none)
    (h2 : checkDictStructure SCXQ2_DEFAULT_POLICY (jgetD pack "dict") = none)
    (h3 : checkBlocks SCXQ2_DEFAULT_POLICY (jget (jgetD pack "dict") "dict_sha256_canon")
      ((blocksOf pack).getD []) = none)
    (hsha : jget pack "pack_sha256_canon" = some (.jstr s))
    (hne : s ≠ "")
    (hdiff : s ≠ hash (utf16Units (canon (copyMinus pack "pack_sha256_canon")))) :
    scxq2PackVerify hash pack SCXQ2_DEFAULT_POLICY =
      .vfail ⟨"scxq2.error.pack_sha_mismatch", "canon"⟩ := by
  have hmiss : checkHashes hash pack (jgetD pack "dict") ((blocksOf pack).getD []) =
      some ⟨"scxq2.error.pack_sha_mismatch", "canon"⟩ := by
    unfold checkHashes
    rw [hsha]
    simp [truthyO, truthy, hne, isStrVal, hdiff]
  simp only [scxq2PackVerify, h1, h2, h3, hmiss]

/-- Witness for C5 (amended): the same pack with `"zzz"` stored. -/
theorem c5_pack_sha_mismatch_first_witness :
    scxq2PackVerify constHash (mkPack [] "QQ==" "zzz") SCXQ2_DEFAULT_POLICY =
      .vfail ⟨"scxq2.error.pack_sha_mismatch", "canon"⟩ :=
  c5_pack_sha_mismatch_first constHash (mkPack [] "QQ==" "zzz") "zzz" rfl rfl rfl rfl
    (by simp) (by simp [constHash])

/-! ## Claim C6 — strict base64 in phase 5 -/

theorem checkBlocksDecode_append (hash : CUStr → String) (P : SCXQ2Policy)
    (dictArr : DecDict) (pre rest : List JVal)
    (hpre : ∀ b' ∈ pre, checkBlockDecode hash P dictArr b' = none) :
    checkBlocksDecode hash P dictArr (pre ++ rest) =
      checkBlocksDecode hash P dictArr rest := by
  induction pre with
  | nil => rfl
  | cons b bs ih =>
    rw [List.cons_append]
    show (match checkBlockDecode hash P dictArr b with
      | some e => some e
      | none => checkBlocksDecode hash P dictArr (bs ++ rest)) =
      checkBlocksDecode hash P dictArr rest
    rw [hpre b (List.mem_cons_self b bs)]
    exact ih (fun b' hb => hpre b' (List.mem_cons_of_mem b hb))

/-- Claim C6 (amended).  For every pack reaching phase 5, the first block whose
`b64` string contains a character outside the extended alphabet
`[A-Za-z0-9+/=]` is rejected with `block_b64_invalid` before any bytecode
decoding of that block; the regex is the only base64 validation, so this is
exactly the "non-alphabet" half of the claim. -/
theorem c6_b64_alphabet_reject (hash : CUStr → String) (pack : JVal)
    (pre post : List JVal) (b : JVal) (s : String)
    (h1 : checkPackStructure SCXQ2_DEFAULT_POLICY pack = none)
    (h2 : checkDictStructure SCXQ2_DEFAULT_POLICY (jgetD pack "dict") = none)
    (h3 : checkBlocks SCXQ2_DEFAULT_POLICY (jget (jgetD pack "dict") "dict_sha256_canon")
      ((blocksOf pack).getD []) = none)
    (h4 : checkHashes hash pack (jgetD pack "dict") ((blocksOf pack).getD []) = none)
    (hsplit : (blocksOf pack).getD [] = pre ++ b :: post)
    (hpre : ∀ b' ∈ pre, checkBlockDecode hash SCXQ2_DEFAULT_POLICY
      (decDictOf (jgetD (jgetD pack "dict") "dict")) b' = none)
    (hb64 : jget b "b64" = some (.jstr s))
    (hbad : s.data.all isB64Char = false) :
    scxq2PackVerify hash pack SCXQ2_DEFAULT_POLICY =
      .vfail ⟨"scxq2.error.block_b64_invalid", "block"⟩ := by
  have hbd : checkBlockDecode hash SCXQ2_DEFAULT_POLICY
      (decDictOf (jgetD (jgetD pack "dict") "dict")) b =
      some ⟨"scxq2.error.block_b64_invalid", "block"⟩ := by
    have hb64' : jgetD b "b64" = .jstr s := by simp [jgetD, hb64]
    have hsne : ¬ s.length = 0 := by
      intro h0
      have hdata : s.data = [] := List.length_eq_zero.mp h0
      rw [hdata] at hbad
      simp at hbad
    have hnb : ¬ (s.data.all isB64Char = true) := by
      rw [hbad]
      exact Bool.false_ne_true
    have hsb : strictB64Decode (JVal.jstr s) = none := by
      show (if s.length = 0 then none
        else if s.data.all isB64Char = true then some (nodeB64Decode s) else none) = none
      rw [if_neg hsne, if_neg hnb]
    unfold checkBlockDecode
    rw [hb64', hsb]
  have hdec : checkBlocksDecode hash SCXQ2_DEFAULT_POLICY
      (decDictOf (jgetD (jgetD pack "dict") "dict")) ((blocksOf pack).getD []) =
      some ⟨"scxq2.error.block_b64_invalid", "block"⟩ := by
    rw [hsplit, checkBlocksDecode_append hash SCXQ2_DEFAULT_POLICY
      (decDictOf (jgetD (jgetD pack "dict") "dict")) pre (b :: post) hpre]
    show (match checkBlockDecode hash SCXQ2_DEFAULT_POLICY
        (decDictOf (jgetD (jgetD pack "dict") "dict")) b with
      | some e => some e
      | none => checkBlocksDecode hash SCXQ2_DEFAULT_POLICY
          (decDictOf (jgetD (jgetD pack "dict") "dict")) post) = _
    rw [hbd]
  simp only [scxq2PackVerify, h1, h2, h3, h4, hdec]

/-- Witness for C6 (amended): a block whose `b64` is `"a!b"`. -/
theorem c6_b64_alphabet_reject_witness :
    scxq2PackVerify constHash (mkPack [] "a!b" "h") SCXQ2_DEFAULT_POLICY =
      .vfail ⟨"scxq2.error.block_b64_invalid", "block"⟩ :=
  c6_b64_alphabet_reject constHash (mkPack [] "a!b" "h") [] [] (mkBlock "a!b") "a!b"
    rfl rfl rfl rfl rfl (fun b' hb => absurd hb (List.not_mem_nil b')) rfl (by decide)

/-- Claim C6, counterexample.  The "invalid padding" half of the claim is
false: `strictB64Decode`'s regex allows `=` anywhere and `Buffer.from(s,
"base64")` never throws, so a block whose `b64` is `"===="` — invalid padding
under strict base64 (`src/base64.js`'s own `isValidBase64` rejects it) — is
*not* rejected with `block_b64_invalid`: it decodes leniently to zero bytes
and this otherwise-valid pack verifies successfully. -/
theorem c6_padding_counterexample :
    jget (mkBlock "====") "b64" = some (.jstr "====") ∧
    strictB64Decode (.jstr "====") = some [] ∧
    scxq2PackVerify constHash (mkPack [] "====" "h") SCXQ2_DEFAULT_POLICY =
      .vok (.jstr "h") (.jstr "h") 1 :=
  ⟨rfl, rfl, rfl⟩

/-! ## The engine decompressor (`verifyPack`, `ccDecompress`, engine module) -/

/-- The frozen `SCXQ2_ENCODING` constant. -/
structure SCXQ2Encoding where
  mode : String
  encoding : String

def SCXQ2_ENCODING : SCXQ2Encoding := ⟨"SCXQ2-DICT16-B64", "SCXQ2-1"⟩

def isArrVal : Option JVal → Bool
  | some (.jarr _) => true
  | _ => false

def isStrAny : Option JVal → Bool
  | some (.jstr _) => true
  | _ => false

/-- Model of `verifyPack(dictJson, blockJson)`: the engine's structural checks, in
source order; `false` models the thrown exception.  The dictionary-linkage
check throws only when both hashes are present (truthy) and differ. -/
def verifyPackB (dictJson blockJson : JVal) : Bool :=
  (truthy dictJson && isObjLike dictJson) &&
  (truthy blockJson && isObjLike blockJson) &&
  isStrVal (jget dictJson "@type") "scxq2.dict" &&
  isStrVal (jget blockJson "@type") "scxq2.block" &&
  isArrVal (jget dictJson "dict") &&
  isStrAny (jget blockJson "b64") &&
  isStrVal (jget dictJson "mode") SCXQ2_ENCODING.mode &&
  isStrVal (jget blockJson "mode") SCXQ2_ENCODING.mode &&
  isStrVal (jget dictJson "encoding") SCXQ2_ENCODING.encoding &&
  isStrVal (jget blockJson "encoding") SCXQ2_ENCODING.encoding &&
  ! (truthyO (jget blockJson "dict_sha256_canon") &&
     truthyO (jget dictJson "dict_sha256_canon") &&
     ! jsEq (jget blockJson "dict_sha256_canon") (jget dictJson "dict_sha256_canon"))

/-- Model of `base64ToBytes`: strips an optional `"base64:"` tag, then decodes
leniently (Node `Buffer.from(..., "base64")`, never throwing). -/
def base64ToBytes (s : String) : List Nat :=
  nodeB64Decode (if s.startsWith "base64:" then (s.drop 7) else s)

/-- The `ccDecompress` byte loop.  Three branches only: `0x80 hi lo`
dictionary reference, `0x81 hi lo` UTF-16 literal, and **everything else**
appended via `String.fromCharCode(b)` — including bytes 0x82–0xFF.  The
`(bytes[++i] << 8) | bytes[++i]` reads do not bounds-check: a read past the
end yields `undefined`, which the shift/or coerces to 0.  A non-string
`dict[idx]` (out-of-range included) throws, modelled as `none`. -/
def ccDecLoop (dict : DecDict) : List Nat → Option CUStr
  | [] => some []
  | b :: rest =>
    if b = 0x80 then
      match rest with
      | b1 :: b2 :: r =>
        match dict[b1 * 256 + b2]? with
        | some (some tok) => (ccDecLoop dict r).map (fun out => tok ++ out)
        | _ => none
      | [b1] =>
        match dict[b1 * 256 + 0]? with
        | some (some tok) => (ccDecLoop dict []).map (fun out => tok ++ out)
        | _ => none
      | [] =>
        match dict[0]? with
        | some (some tok) => (ccDecLoop dict []).map (fun out => tok ++ out)
        | _ => none
    else if b = 0x81 then
      match rest with
      | b1 :: b2 :: r => (ccDecLoop dict r).map (fun out => (b1 * 256 + b2) :: out)
      | [b1] => (ccDecLoop dict []).map (fun out => (b1 * 256 + 0) :: out)
      | [] => (ccDecLoop dict []).map (fun out => (0 : Nat) :: out)
    else (ccDecLoop dict rest).map (fun out => b :: out)

/-- Model of `ccDecompress(dictJson, blockJson)`: verify, base64-decode the block,
run the loop; `none` models a thrown exception. -/
def ccDecompress (dictJson blockJson : JVal) : Option CUStr :=
  if ! verifyPackB dictJson blockJson then none
  else
    match jget blockJson "b64" with
    | some (.jstr s) => ccDecLoop (decDictOf (jgetD dictJson "dict")) (base64ToBytes s)
    | _ => none

/-! ## Claim C2 — counterexample against `ccDecompress` -/

/-- Claim C2, counterexample.  The claim asserts the invalid-byte rejection of
both `scxq2DecodeUtf16` and `ccDecompress`, but `ccDecompress` has no such
check: a byte in 0x82–0xFF falls through to the ASCII-literal branch and is
appended as a literal code unit.  With an empty dictionary and the block
whose base64 `"gg=="` decodes to the single byte `0x82` — the claim's own
Scenario B input — `ccDecompress` succeeds with the one-unit string U+0082
instead of failing with `invalid_byte`. -/
theorem c2_ccDecompress_counterexample :
    base64ToBytes "gg==" = [0x82] ∧
    ccDecompress (mkDict []) (mkBlock "gg==") = some [0x82] :=
  ⟨rfl, rfl⟩

/-! ## Claim C8 — proof outcome invariant (`makeProof`) -/

/-- Length `dictJson.dict.length` as `makeProof`'s steps record it. -/
def dictEntriesLen (d : JVal) : Int :=
  match jget d "dict" with
  | some (.jarr es) => es.length
  | _ => 0

/-- Model of `makeProof(srcSha, rtSha, dictJson, blockJson, o)`: all fields in source
order; `ok` is the strict string equality `srcSha === rtSha`. -/
def makeProof (srcSha rtSha : String) (dictJson blockJson : JVal) (created : String) : JVal :=
  .jobj [("@type", .jstr "cc.proof"), ("@version", .jstr "1.0.0"),
    ("engine", .jstr "asx://cc/engine/scxq2.v1"),
    ("created_utc", .jstr created),
    ("source_sha256_utf8", .jstr srcSha),
    ("dict_sha256_canon", jgetD dictJson "dict_sha256_canon"),
    ("block_sha256_canon", jgetD blockJson "block_sha256_canon"),
    ("roundtrip_sha256_utf8", .jstr rtSha),
    ("ok", .jbool (srcSha == rtSha)),
    ("steps", .jarr [
      .jobj [("op", .jstr "cc.norm.v1"), ("sha", .jstr srcSha)],
      .jobj [("op", .jstr "cc.dict.v1"), ("dict_entries", .jint (dictEntriesLen dictJson))],
      .jobj [("op", .jstr "scxq2.encode.v1"),
        ("block_sha", jgetD blockJson "block_sha256_canon")],
      .jobj [("op", .jstr "scxq2.decode.v1"), ("roundtrip_sha", .jstr rtSha)]])]

/-- Lines 95–98 of `ccCompress` (and the same steps of `ccCompressSync`):
decode the freshly built block back, hash source and roundtrip, build the
proof.  `hash` is the injected `sha256HexUtf8`, `src` the canonicalized
input text. -/
def ccCompressProofStep (hash : CUStr → String) (src : CUStr) (dictJson blockJson : JVal)
    (created : String) : Option JVal :=
  (ccDecompress dictJson blockJson).map
    (fun rt => makeProof (hash src) (hash rt) dictJson blockJson created)

/-- Claim C8.  In every proof object the compression path produces, the `ok`
field is `true` exactly when the recorded source-text hash equals the
recorded roundtrip hash of decoding the block back to text. -/
theorem c8_proof_ok_iff (hash : CUStr → String) (src rt : CUStr) (dictJson blockJson : JVal)
    (created : String) (hrt : ccDecompress dictJson blockJson = some rt) :
    ccCompressProofStep hash src dictJson blockJson created =
      some (makeProof (hash src) (hash rt) dictJson blockJson created) ∧
    (jget (makeProof (hash src) (hash rt) dictJson blockJson created) "ok" =
      some (.jbool true) ↔ hash src = hash rt) ∧
    jget (makeProof (hash src) (hash rt) dictJson blockJson created) "source_sha256_utf8" =
      some (.jstr (hash src)) ∧
    jget (makeProof (hash src) (hash rt) dictJson blockJson created) "roundtrip_sha256_utf8" =
      some (.jstr (hash rt)) := by
  refine ⟨by rw [ccCompressProofStep, hrt]; rfl, ?_, rfl, rfl⟩
  have hok : jget (makeProof (hash src) (hash rt) dictJson blockJson created) "ok" =
      some (.jbool ((hash src) == (hash rt))) := rfl
  constructor
  · intro h
    rw [hok] at h
    have hb := Option.some.inj h
    have hbe : ((hash src) == (hash rt)) = true := JVal.jbool.inj hb
    exact eq_of_beq hbe
  · intro h
    rw [hok, h]
    simp

/-- Witness for C8: the empty dictionary with the one-byte block `"A"`. -/
theorem c8_proof_ok_iff_witness :
    ccCompressProofStep constHash [65] (mkDict []) (mkBlock "QQ==") "t" =
      some (makeProof "h" "h" (mkDict []) (mkBlock "QQ==") "t") ∧
    (jget (makeProof "h" "h" (mkDict []) (mkBlock "QQ==") "t") "ok" =
      some (.jbool true) ↔ ("h" : String) = "h") := by
  have h := c8_proof_ok_iff constHash [65] [65] (mkDict []) (mkBlock "QQ==") "t" rfl
  exact ⟨h.1, h.2.1⟩
